import Mathlib

/-!
Verification development for the flow-editor repository.

The definitions below are a shallow embedding of the layout engine
(`autoArrangeNodes` and its helpers in `src/App.vue`), the save/load
payload functions (`buildFlowPayload` / `applyFlowPayload`), the
connection-arrow geometry helpers (`parseBezierPath` / `bezierMidpoint`)
and the port-key generator (`ProcessNode.makeKey` / `addFlowInterface`
in `src/nodes/ProcessNode.ts`).

Modelling conventions:
* JavaScript numbers are modelled as rationals (`ℚ`); the layout code
  performs only field arithmetic, comparisons, `Math.max`/`Math.min`.
* `-Infinity` seeds of `Math.max` folds are modelled as `Option ℚ`
  with `none` standing for `-Infinity`; `Number.isFinite x` becomes
  `x ≠ none`.
* Baklava node/interface objects are modelled as records; JavaScript
  object identity between nodes is modelled by `id` equality.
* The DOM (`document.getElementById(...).getBoundingClientRect()`) is
  modelled as a partial map from node id to a measured rectangle.
* In-place mutation of `node.position` by `setPos` is modelled by a
  list of position writes (`Writes`), most recent first; reading a
  position consults the writes first and falls back to the pre-pass
  position, exactly like reading the mutated object mid-pass.
-/

namespace FlowSpec

/-- A 2-D point in diagram coordinates (`node.position`). -/
structure Point where
  x : ℚ
  y : ℚ
deriving Repr, DecidableEq

/-- A measured or fallback size (`{width, height}`). -/
structure Size where
  width : ℚ
  height : ℚ
deriving Repr, DecidableEq

/-- The two node classes of the editor (`node.type` strings
`"ProcessNode"` / `"ResourceNode"`). -/
inductive NodeKind
  | process
  | resource
deriving Repr, DecidableEq

/-- `ResourceNode.resourceType` values. -/
inductive ResourceType
  | input
  | output
  | machine
  | energy
  | gas
  | water
  | service
  | property
deriving Repr, DecidableEq

/-- The layout-relevant static data of a node: id, class, title,
resource kind, details text, and the ids of its input and output
interfaces in creation order (`Object.values(node.inputs)` /
`Object.values(node.outputs)`). -/
structure NodeData where
  id : Nat
  kind : NodeKind
  title : String
  resourceType : ResourceType
  details : String
  inputs : List Nat
  outputs : List Nat
deriving Repr, DecidableEq

/-- A node together with its current position. -/
structure LNode extends NodeData where
  position : Point
deriving Repr, DecidableEq

/-- A connection: directed edge between two interface ids
(`connection.from` / `connection.to`; `from` is a Lean keyword, hence
`fromPort` / `toPort`). -/
structure Connection where
  fromPort : Nat
  toPort : Nat
deriving Repr, DecidableEq

/-- The static part of the displayed graph: nodes without positions,
connections in creation order, and the view transform. -/
structure SGraph where
  nodes : List NodeData
  connections : List Connection
  scaling : ℚ
  panning : Point
deriving Repr, DecidableEq

/-- The displayed graph (`baklava.displayedGraph`): nodes with
positions, connections, zoom scale and pan offset. -/
structure Graph where
  nodes : List LNode
  connections : List Connection
  scaling : ℚ
  panning : Point
deriving Repr, DecidableEq

/-- Forget the positions of a graph. -/
def statG (g : Graph) : SGraph :=
  ⟨g.nodes.map (·.toNodeData), g.connections, g.scaling, g.panning⟩

/-- Position of the node with the given id (first match), defaulting to
the origin when the node is absent. -/
def posOf (g : Graph) (nid : Nat) : Point :=
  ((g.nodes.find? (fun n => n.id == nid)).map (·.position)).getD ⟨0, 0⟩

/-- The pre-pass positions of a graph, as a function of node id. -/
def basePosOf (g : Graph) : Nat → Point :=
  fun nid => posOf g nid

/-- The browser environment visible to the layout pass:
`window.innerWidth`, `window.innerHeight` and the DOM measurement
oracle (`getElementById(...).getBoundingClientRect()`), `none` when the
element is not in the document. -/
structure Env where
  innerWidth : ℚ
  innerHeight : ℚ
  dom : Nat → Option Size

/-- `getNodeSize(node, fallback)`: measure the rendered element and
divide by the zoom scale (`graph.scaling || 1`); return the caller's
fallback when the element is not in the document. -/
def getNodeSize (env : Env) (sg : SGraph) (nid : Nat) (fallback : Size) : Size :=
  match env.dom nid with
  | none => fallback
  | some rect =>
    let scale := if sg.scaling = 0 then 1 else sg.scaling
    ⟨rect.width / scale, rect.height / scale⟩

/-- `window.innerWidth / (2 * graph.scaling) - graph.panning.x`. -/
def centerXOf (env : Env) (sg : SGraph) : ℚ :=
  env.innerWidth / (2 * sg.scaling) - sg.panning.x

/-- `window.innerHeight / (2 * graph.scaling) - graph.panning.y`. -/
def centerYOf (env : Env) (sg : SGraph) : ℚ :=
  env.innerHeight / (2 * sg.scaling) - sg.panning.y

/-- The sequence of `setPos` writes performed so far, most recent
first. -/
abbrev Writes := List (Nat × Point)

/-- Read a node's current position mid-pass: the most recent `setPos`
write if any, otherwise the pre-pass position. -/
def readPos (base : Nat → Point) (ws : Writes) (nid : Nat) : Point :=
  match ws.find? (fun e => e.1 == nid) with
  | some e => e.2
  | none => base nid

/-- `setPos(node, x, y)`. -/
def setPos (ws : Writes) (nid : Nat) (x y : ℚ) : Writes :=
  (nid, ⟨x, y⟩) :: ws

/-- Perform a batch of `setPos` writes in list order (so the LAST
element of `l` ends up most recent). -/
def pushWrites (ws : Writes) (l : List (Nat × Point)) : Writes :=
  l.foldl (fun acc e => e :: acc) ws

/-- Leading coordinates of a stack walk: place the first item at
`start`, then advance by that item's extent plus the gap
(`currentY += size.height + gap` and friends). -/
def stackOffsets (start gap : ℚ) : List ℚ → List ℚ
  | [] => []
  | e :: rest => start :: stackOffsets (start + e + gap) gap rest

/-- `Math.max` fold seeded with `-Infinity` (`none`). -/
def optMax (acc : Option ℚ) (v : ℚ) : Option ℚ :=
  match acc with
  | none => some v
  | some a => some (max a v)

/-- The node lists `processNodes` / `resourceNodes` of a pass. -/
def processNodesOf (sg : SGraph) : List NodeData :=
  sg.nodes.filter (fun n => n.kind == NodeKind.process)

def resourceNodesOf (sg : SGraph) : List NodeData :=
  sg.nodes.filter (fun n => n.kind == NodeKind.resource)

/-- `processNodes.find((node) => node.title === "Process") || processNodes[0]`. -/
def mainProcessOf (sg : SGraph) : Option NodeData :=
  ((processNodesOf sg).find? (fun n => n.title == "Process")) <|> (processNodesOf sg).head?

/-- The `interfaceNodeMap` entries: for every node, in list order, its
input interfaces then its output interfaces, each mapped to the owning
node (`Map.set`, so a later entry overrides an earlier one). -/
def interfaceEntries (nodes : List NodeData) : List (Nat × NodeData) :=
  nodes.foldl
    (fun m n => m ++ (n.inputs.map (fun p => (p, n))) ++ (n.outputs.map (fun p => (p, n))))
    []

/-- `Map.get`: the value of the LAST `set` for the key, if any. -/
def mapGet (m : List (Nat × NodeData)) (k : Nat) : Option NodeData :=
  (m.reverse.find? (fun e => e.1 == k)).map (·.2)

/-- The resource-type partition performed at the start of each branch:
`input` resources, `output` resources, and everything else as
mechanisms. -/
def inputResourcesOf (sg : SGraph) : List NodeData :=
  (resourceNodesOf sg).filter (fun r => r.resourceType == ResourceType.input)

def outputResourcesOf (sg : SGraph) : List NodeData :=
  (resourceNodesOf sg).filter (fun r => r.resourceType == ResourceType.output)

def mechanismResourcesOf (sg : SGraph) : List NodeData :=
  (resourceNodesOf sg).filter
    (fun r => !(r.resourceType == ResourceType.input) && !(r.resourceType == ResourceType.output))

/-- Owner resolution for an `input` resource: take the resource's first
output interface, find the first connection leaving it, look the far
end up in the interface map; keep the owner only when it is a process
node, otherwise fall back to the main process (also when there is no
port, no connection, or no map entry). Returns the owning process id. -/
def inputOwnerId (sg : SGraph) (mainP : Option NodeData) (r : NodeData) : Option Nat :=
  match r.outputs.head? with
  | none => mainP.map (·.id)
  | some p =>
    match sg.connections.find? (fun c => c.fromPort == p) with
    | none => mainP.map (·.id)
    | some c =>
      match mapGet (interfaceEntries sg.nodes) c.toPort with
      | none => mainP.map (·.id)
      | some o => if o.kind == NodeKind.process then some o.id else mainP.map (·.id)

/-- Owner resolution for an `output` resource: first input interface,
first connection arriving at it, owner of the far end. -/
def outputOwnerId (sg : SGraph) (mainP : Option NodeData) (r : NodeData) : Option Nat :=
  match r.inputs.head? with
  | none => mainP.map (·.id)
  | some p =>
    match sg.connections.find? (fun c => c.toPort == p) with
    | none => mainP.map (·.id)
    | some c =>
      match mapGet (interfaceEntries sg.nodes) c.fromPort with
      | none => mainP.map (·.id)
      | some o => if o.kind == NodeKind.process then some o.id else mainP.map (·.id)

/-- The members of the group owned by process `pid` (insertion order =
resource iteration order, exactly the per-owner `push`es). -/
def groupFor (owner : NodeData → Option Nat) (items : List NodeData) (pid : Nat) :
    List NodeData :=
  items.filter (fun r => owner r == some pid)

/-- First-occurrence deduplication, mirroring the key set of a JS `Map`
in insertion order. -/
def firstDedupGo (seen : List Nat) : List Nat → List Nat
  | [] => []
  | a :: rest =>
    if a ∈ seen then firstDedupGo seen rest
    else a :: firstDedupGo (a :: seen) rest

def firstDedup (l : List Nat) : List Nat :=
  firstDedupGo [] l

/-- The owner keys of a group map, in first-insertion order (the
iteration order of `Map.forEach`). -/
def groupOwners (owner : NodeData → Option Nat) (items : List NodeData) : List Nat :=
  firstDedup (items.filterMap owner)

/-- `bottom` as tracked by the stacking loops: initialized to the
starting offset, then set to `y + size.height` for every item. -/
def stackBottom (start : ℚ) (ys hs : List ℚ) : ℚ :=
  match (ys.zip hs).getLast? with
  | some e => e.1 + e.2
  | none => start

/-- The position writes of `placeLeftOfProcess` (landscape): stack the
items vertically (gap 30) centered on the owner's vertical center,
each item's right edge 220 to the left of the owner's left edge. -/
def placeLeftWrites (env : Env) (sg : SGraph) (b : Nat → Point) (ws : Writes)
    (pid : Nat) (items : List NodeData) : List (Nat × Point) :=
  let processRect := getNodeSize env sg pid ⟨200, 180⟩
  let processX := (readPos b ws pid).x + processRect.width / 2
  let processY := (readPos b ws pid).y + processRect.height / 2
  let sizes := items.map (fun n => getNodeSize env sg n.id ⟨200, 120⟩)
  let totalHeight := (sizes.map (·.height)).sum + ((items.length - 1 : ℕ) : ℚ) * 30
  let ys := stackOffsets (processY - totalHeight / 2) 30 (sizes.map (·.height))
  (items.zip (sizes.zip ys)).map
    (fun e => (e.1.id, (⟨processX - processRect.width / 2 - 220 - e.2.1.width, e.2.2⟩ : Point)))

/-- The `bottom` value returned by `placeLeftOfProcess` for a
non-empty group. -/
def placeLeftBottom (env : Env) (sg : SGraph) (b : Nat → Point) (ws : Writes)
    (pid : Nat) (items : List NodeData) : ℚ :=
  let processRect := getNodeSize env sg pid ⟨200, 180⟩
  let processY := (readPos b ws pid).y + processRect.height / 2
  let sizes := items.map (fun n => getNodeSize env sg n.id ⟨200, 120⟩)
  let totalHeight := (sizes.map (·.height)).sum + ((items.length - 1 : ℕ) : ℚ) * 30
  let hs := sizes.map (·.height)
  stackBottom (processY - totalHeight / 2) (stackOffsets (processY - totalHeight / 2) 30 hs) hs

/-- `placeLeftOfProcess(processNode, items)`: returns the updated write
log and the group's `bottom` (for an empty group: no writes,
`bottom = processTop`). -/
def placeLeftOfProcess (env : Env) (sg : SGraph) (b : Nat → Point) (ws : Writes)
    (pid : Nat) (items : List NodeData) (processTop : ℚ) : Writes × ℚ :=
  if items.isEmpty then (ws, processTop)
  else (pushWrites ws (placeLeftWrites env sg b ws pid items),
        placeLeftBottom env sg b ws pid items)

/-- The position writes of `placeRightOfProcess` (landscape): stack the
items vertically (gap 30) centered on the owner's vertical center, each
item's left edge 220 to the right of the owner's right edge. -/
def placeRightWrites (env : Env) (sg : SGraph) (b : Nat → Point) (ws : Writes)
    (pid : Nat) (items : List NodeData) : List (Nat × Point) :=
  let processRect := getNodeSize env sg pid ⟨200, 180⟩
  let processX := (readPos b ws pid).x + processRect.width / 2
  let processY := (readPos b ws pid).y + processRect.height / 2
  let sizes := items.map (fun n => getNodeSize env sg n.id ⟨200, 120⟩)
  let totalHeight := (sizes.map (·.height)).sum + ((items.length - 1 : ℕ) : ℚ) * 30
  let x := processX + processRect.width / 2 + 220
  let ys := stackOffsets (processY - totalHeight / 2) 30 (sizes.map (·.height))
  (items.zip ys).map (fun e => (e.1.id, (⟨x, e.2⟩ : Point)))

/-- The `maxRight` value of `placeRightOfProcess` for a non-empty
group: `Math.max` (seeded `-Infinity`) of `x + size.width` over the
items. -/
def placeRightMaxRight (env : Env) (sg : SGraph) (b : Nat → Point) (ws : Writes)
    (pid : Nat) (items : List NodeData) : ℚ :=
  let processRect := getNodeSize env sg pid ⟨200, 180⟩
  let processX := (readPos b ws pid).x + processRect.width / 2
  let x := processX + processRect.width / 2 + 220
  let sizes := items.map (fun n => getNodeSize env sg n.id ⟨200, 120⟩)
  (((sizes.map (fun s => x + s.width)).foldl optMax none)).getD 0

/-- The `bottom` value of `placeRightOfProcess` for a non-empty
group. -/
def placeRightBottom (env : Env) (sg : SGraph) (b : Nat → Point) (ws : Writes)
    (pid : Nat) (items : List NodeData) : ℚ :=
  let processRect := getNodeSize env sg pid ⟨200, 180⟩
  let processY := (readPos b ws pid).y + processRect.height / 2
  let sizes := items.map (fun n => getNodeSize env sg n.id ⟨200, 120⟩)
  let totalHeight := (sizes.map (·.height)).sum + ((items.length - 1 : ℕ) : ℚ) * 30
  let hs := sizes.map (·.height)
  stackBottom (processY - totalHeight / 2) (stackOffsets (processY - totalHeight / 2) 30 hs) hs

/-- `placeRightOfProcess(processNode, items)`: write log, `maxRight`
and `bottom` (empty group: `{maxRight: processRight, bottom:
processTop}`, no writes). -/
def placeRightOfProcess (env : Env) (sg : SGraph) (b : Nat → Point) (ws : Writes)
    (pid : Nat) (items : List NodeData) (processRight processTop : ℚ) : Writes × ℚ × ℚ :=
  if items.isEmpty then (ws, processRight, processTop)
  else (pushWrites ws (placeRightWrites env sg b ws pid items),
        placeRightMaxRight env sg b ws pid items,
        placeRightBottom env sg b ws pid items)

/-- The mechanism-row writes (landscape): a horizontal row with gap 40,
centered on `centerX`, all at `bottomRowY`. -/
def mechRowWrites (env : Env) (sg : SGraph) (mechanisms : List NodeData)
    (centerX bottomRowY : ℚ) : List (Nat × Point) :=
  let mechSizes := mechanisms.map (fun n => getNodeSize env sg n.id ⟨200, 120⟩)
  let totalMechWidth :=
    (mechSizes.map (·.width)).sum + ((mechanisms.length - 1 : ℕ) : ℚ) * 40
  let xs := stackOffsets (centerX - totalMechWidth / 2) 40 (mechSizes.map (·.width))
  (mechanisms.zip xs).map (fun e => (e.1.id, (⟨e.2, bottomRowY⟩ : Point)))

/-- The `inputGroups.forEach(placeLeftOfProcess)` loop of the
landscape branch, tracking `inputsBottom` (`-Infinity` seed). -/
def inputGroupsFold (env : Env) (sg : SGraph) (b : Nat → Point) (mainProcess : Option NodeData)
    (inputs : List NodeData) (processTop : ℚ) (ws : Writes) : Writes × Option ℚ :=
  (groupOwners (inputOwnerId sg mainProcess) inputs).foldl
    (fun acc pid =>
      let group := groupFor (inputOwnerId sg mainProcess) inputs pid
      let res := placeLeftOfProcess env sg b acc.1 pid group processTop
      (res.1, optMax acc.2 res.2))
    ((ws, (none : Option ℚ)))

/-- The `outputGroups.forEach(placeRightOfProcess)` loop of the
landscape branch, tracking `outputColumnRight` (seeded with
`processRight`) and `outputsBottom` (`-Infinity` seed). -/
def outputGroupsFold (env : Env) (sg : SGraph) (b : Nat → Point) (mainProcess : Option NodeData)
    (outputs : List NodeData) (processRight processTop : ℚ) (ws : Writes) :
    Writes × ℚ × Option ℚ :=
  (groupOwners (outputOwnerId sg mainProcess) outputs).foldl
    (fun acc pid =>
      let group := groupFor (outputOwnerId sg mainProcess) outputs pid
      let res := placeRightOfProcess env sg b acc.1 pid group processRight processTop
      (res.1, max acc.2.1 res.2.1, optMax acc.2.2 res.2.2))
    ((ws, processRight, (none : Option ℚ)))

/-- The landscape branch of `autoArrangeNodes` as a sequence of
position writes: main process at the visual center, per-owner input
columns to the left, output columns to the right, the mechanism row
below, then the secondary-process column on the far right. -/
def autoArrangeLandscape (env : Env) (sg : SGraph) (b : Nat → Point) : Writes :=
  let centerX := centerXOf env sg
  let centerY := centerYOf env sg
  let mainProcess := mainProcessOf sg
  let ws1 := match mainProcess with
    | some mp =>
      let size := getNodeSize env sg mp.id ⟨200, 180⟩
      setPos [] mp.id (centerX - size.width / 2) (centerY - size.height / 2 - 40)
    | none => []
  let inputs := inputResourcesOf sg
  let outputs := outputResourcesOf sg
  let mechanisms := mechanismResourcesOf sg
  let processSize := match mainProcess with
    | some p => getNodeSize env sg p.id ⟨200, 180⟩
    | none => (⟨200, 180⟩ : Size)
  let processRight := centerX + processSize.width / 2
  let processTop := centerY - processSize.height / 2 - 40
  let processBottom := centerY + processSize.height / 2 - 40
  let inFold := inputGroupsFold env sg b mainProcess inputs processTop ws1
  let ws2 := inFold.1
  let inputsBottom := inFold.2
  let outFold := outputGroupsFold env sg b mainProcess outputs processRight processTop ws2
  let ws3 := outFold.1
  let outputColumnRight := outFold.2.1
  let outputsBottom := outFold.2.2
  let safeInputsBottom := inputsBottom.getD processBottom
  let safeOutputsBottom := match outputsBottom with
    | some v => some v
    | none => inputsBottom
  let bottomRowTarget := (match safeOutputsBottom with
    | some v => max safeInputsBottom v
    | none => safeInputsBottom) + 10
  let bottomRowY := max (processBottom + 20) bottomRowTarget
  let ws4 := pushWrites ws3 (mechRowWrites env sg mechanisms centerX bottomRowY)
  let secondaryProcesses := (processNodesOf sg).filter
    (fun n => !(mainProcess.map (·.id) == some n.id))
  if secondaryProcesses.isEmpty then ws4
  else
    let columnCenterX := max (outputColumnRight + 220) (centerX + 520)
    let sizes := secondaryProcesses.map (fun n => getNodeSize env sg n.id ⟨200, 180⟩)
    let totalHeight :=
      (sizes.map (·.height)).sum + ((secondaryProcesses.length - 1 : ℕ) : ℚ) * 40
    let ys := stackOffsets (centerY - totalHeight / 2 - 40) 40 (sizes.map (·.height))
    pushWrites ws4 ((secondaryProcesses.zip (sizes.zip ys)).map
      (fun e => (e.1.id, (⟨columnCenterX - e.2.1.width / 2, e.2.2⟩ : Point))))

/-- `getRowMetrics(items, fallback)` (portrait): sizes, total row width
with gap 20, and the tallest item height (seeded 0). -/
structure RowMetrics where
  sizes : List Size
  totalWidth : ℚ
  maxHeight : ℚ
deriving Repr, DecidableEq

def getRowMetrics (env : Env) (sg : SGraph) (items : List NodeData)
    (fallback : Size) : RowMetrics :=
  let sizes := items.map (fun n => getNodeSize env sg n.id fallback)
  ⟨sizes,
   (sizes.map (·.width)).sum + ((items.length - 1 : ℕ) : ℚ) * 20,
   (sizes.map (·.height)).foldl max 0⟩

/-- The writes of `placeRowFromMetrics`: a horizontal row (gap 20)
centered on `centerXPos`, all at `y`. -/
def placeRowWrites (items : List NodeData) (metrics : RowMetrics)
    (centerXPos y : ℚ) : List (Nat × Point) :=
  let xs := stackOffsets (centerXPos - metrics.totalWidth / 2) 20 (metrics.sizes.map (·.width))
  (items.zip xs).map (fun e => (e.1.id, (⟨e.2, y⟩ : Point)))

/-- `placeRowFromMetrics(items, metrics, centerXPos, y)`. -/
def placeRowFromMetrics (ws : Writes) (items : List NodeData) (metrics : RowMetrics)
    (centerXPos y : ℚ) : Writes :=
  if items.isEmpty then ws
  else pushWrites ws (placeRowWrites items metrics centerXPos y)

/-- The writes of `placeColumnRight` (portrait mechanism column): a
vertical column (gap 20) centered on `centerYPos`, all at `x`. -/
def placeColumnWrites (env : Env) (sg : SGraph) (items : List NodeData)
    (x centerYPos : ℚ) : List (Nat × Point) :=
  let sizes := items.map (fun n => getNodeSize env sg n.id ⟨200, 120⟩)
  let totalHeight := (sizes.map (·.height)).sum + ((items.length - 1 : ℕ) : ℚ) * 20
  let ys := stackOffsets (centerYPos - totalHeight / 2) 20 (sizes.map (·.height))
  (items.zip ys).map (fun e => (e.1.id, (⟨x, e.2⟩ : Point)))

/-- `placeColumnRight(items, x, centerYPos)`. -/
def placeColumnRight (env : Env) (sg : SGraph) (ws : Writes) (items : List NodeData)
    (x centerYPos : ℚ) : Writes :=
  if items.isEmpty then ws
  else pushWrites ws (placeColumnWrites env sg items x centerYPos)

/-- The portrait branch of `autoArrangeNodes`: main process at the
visual center, its input row above and output row below, secondary
processes in a row further below (each with its own rows), and the
mechanism column to the right of the widest row extent. -/
def autoArrangePortrait (env : Env) (sg : SGraph) (b : Nat → Point) : Writes :=
  let centerX := centerXOf env sg
  let centerY := centerYOf env sg
  let mainProcess := mainProcessOf sg
  let ws1 := match mainProcess with
    | some mp =>
      let size := getNodeSize env sg mp.id ⟨200, 180⟩
      setPos [] mp.id (centerX - size.width / 2) (centerY - size.height / 2 - 20)
    | none => []
  let inputs := inputResourcesOf sg
  let outputs := outputResourcesOf sg
  let mechanisms := mechanismResourcesOf sg
  let processRect := match mainProcess with
    | some mp => getNodeSize env sg mp.id ⟨200, 180⟩
    | none => (⟨200, 180⟩ : Size)
  let processX := match mainProcess with
    | some mp => (readPos b ws1 mp.id).x + processRect.width / 2
    | none => centerX
  let processY := match mainProcess with
    | some mp => (readPos b ws1 mp.id).y + processRect.height / 2
    | none => centerY
  let inputGroup := match mainProcess with
    | some mp => groupFor (inputOwnerId sg mainProcess) inputs mp.id
    | none => []
  let inputMetrics := getRowMetrics env sg inputGroup ⟨200, 120⟩
  let inputRowY := processY - processRect.height / 2 - 180 - inputMetrics.maxHeight
  let ws2 := placeRowFromMetrics ws1 inputGroup inputMetrics processX inputRowY
  let outputGroup := match mainProcess with
    | some mp => groupFor (outputOwnerId sg mainProcess) outputs mp.id
    | none => []
  let outputMetrics := getRowMetrics env sg outputGroup ⟨200, 120⟩
  let outputRowY := processY + processRect.height / 2 + 180
  let ws3 := placeRowFromMetrics ws2 outputGroup outputMetrics processX outputRowY
  let secondaryProcesses := (processNodesOf sg).filter
    (fun n => !(mainProcess.map (·.id) == some n.id))
  let ws4 :=
    if secondaryProcesses.isEmpty then ws3
    else
      let secondaryInputsMax := secondaryProcesses.foldl
        (fun acc n =>
          max acc (getRowMetrics env sg
            (groupFor (inputOwnerId sg mainProcess) inputs n.id) ⟨200, 120⟩).maxHeight)
        0
      let outputsBottom := outputRowY + outputMetrics.maxHeight
      let secondaryRowY := outputsBottom + 180 + secondaryInputsMax + 40
      let secondaryMetrics := getRowMetrics env sg secondaryProcesses ⟨200, 180⟩
      let wsa := placeRowFromMetrics ws3 secondaryProcesses secondaryMetrics processX secondaryRowY
      secondaryProcesses.foldl
        (fun ws proc =>
          let procSize := getNodeSize env sg proc.id ⟨200, 180⟩
          let procX := (readPos b ws proc.id).x + procSize.width / 2
          let procY := (readPos b ws proc.id).y + procSize.height / 2
          let procOutputs := groupFor (outputOwnerId sg mainProcess) outputs proc.id
          let procOutputsMetrics := getRowMetrics env sg procOutputs ⟨200, 120⟩
          let procOutputY := procY + procSize.height / 2 + 180
          let wsb := placeRowFromMetrics ws procOutputs procOutputsMetrics procX procOutputY
          let procInputs := groupFor (inputOwnerId sg mainProcess) inputs proc.id
          let procInputsMetrics := getRowMetrics env sg procInputs ⟨200, 120⟩
          let procInputY := procY - procSize.height / 2 - 180 - procInputsMetrics.maxHeight
          placeRowFromMetrics wsb procInputs procInputsMetrics procX procInputY)
        wsa
  let maxRowRight := max (processX + inputMetrics.totalWidth / 2)
    (max (processX + outputMetrics.totalWidth / 2) (processX + processRect.width / 2))
  let mechanismX := maxRowRight + 90
  placeColumnRight env sg ws4 mechanisms mechanismX processY

/-- One full layout pass, as position writes: select portrait when
`window.innerHeight > window.innerWidth`, else landscape. -/
def autoArrangeCore (env : Env) (sg : SGraph) (b : Nat → Point) : Writes :=
  if env.innerHeight > env.innerWidth then autoArrangePortrait env sg b
  else autoArrangeLandscape env sg b

/-- Apply the accumulated `setPos` writes to the node list (the most
recent write to a node wins, as with in-place mutation). -/
def applyWrites (ws : Writes) (nodes : List LNode) : List LNode :=
  nodes.map (fun n =>
    match ws.find? (fun e => e.1 == n.id) with
    | some e => { n with position := e.2 }
    | none => n)

/-- The per-node effect of a write log: the most recent write to the
node, if any, replaces its position. -/
def applyOne (ws : Writes) (n : LNode) : LNode :=
  match ws.find? (fun e => e.1 == n.id) with
  | some e => { n with position := e.2 }
  | none => n

/-- `autoArrangeNodes()`: no-op on an empty graph, otherwise run the
orientation-appropriate pass and commit the position writes. Only
positions change. -/
def autoArrangeNodes (env : Env) (g : Graph) : Graph :=
  if g.nodes.isEmpty then g
  else { g with nodes := applyWrites (autoArrangeCore env (statG g) (basePosOf g)) g.nodes }

/-! ## Save / load (`buildFlowPayload` / `applyFlowPayload`)

The per-node snapshot (`SavedNodeMeta`): id, type, title, position,
plus `resourceType` for resources and `details` for processes.  The
free-form `fields` record is user data with no layout meaning and is
elided.  `payload.graph` is the opaque `graph.save()` state of the
external graph-editor library; `graph.load` is likewise external, so a
load is modelled as an arbitrary reconstructed graph constrained only
by the library's contract of preserving node identity. -/

structure SavedNodeMeta where
  id : Nat
  type : NodeKind
  title : String
  position : Point
  resourceType : Option ResourceType
  details : Option String
deriving Repr, DecidableEq

structure FlowPayload where
  version : Nat
  graphState : SGraph
  nodes : List SavedNodeMeta
  scaling : ℚ
  panning : Point
deriving Repr, DecidableEq

/-- `buildFlowPayload()`: snapshot every node's id, type, title and
position (plus type-specific extras) together with the library graph
state and the view transform. -/
def buildFlowPayload (g : Graph) : FlowPayload :=
  { version := 1
    graphState := statG g
    nodes := g.nodes.map (fun n =>
      { id := n.id
        type := n.kind
        title := n.title
        position := n.position
        resourceType := if n.kind == NodeKind.resource then some n.resourceType else none
        details := if n.kind == NodeKind.process then some n.details else none })
    scaling := g.scaling
    panning := g.panning }

/-- `metaById.get(node.id)`: a JS `Map` built from `payload.nodes`, so
for duplicate ids the last entry wins. -/
def metaGet (metas : List SavedNodeMeta) (nid : Nat) : Option SavedNodeMeta :=
  metas.reverse.find? (fun m => m.id == nid)

/-- The per-node body of the restoration loop of `applyFlowPayload`:
restore the title (when non-empty — JS truthiness), overwrite the
position with the saved one (`node.position.x = meta.position.x; ...;
setNodePosition`), and restore the type-specific extras. -/
def restoreOne (n : LNode) (meta : SavedNodeMeta) : LNode :=
  let n1 := if meta.title == "" then n else { n with title := meta.title }
  let n2 := { n1 with position := meta.position }
  let n3 := if n2.kind == NodeKind.resource then
      { n2 with resourceType := (meta.resourceType).getD n2.resourceType }
    else n2
  if n3.kind == NodeKind.process then
    { n3 with details := (meta.details).getD n3.details }
  else n3

/-- The post-`graph.load` restoration loop of `applyFlowPayload`: every
reconstructed node with a snapshot entry is restored by `restoreOne`;
then the view transform is restored (`scaling` only when truthy,
i.e. non-zero). -/
def applyFlowPayloadRestore (loaded : Graph) (payload : FlowPayload) : Graph :=
  { loaded with
    nodes := loaded.nodes.map (fun n =>
      match metaGet payload.nodes n.id with
      | none => n
      | some meta => restoreOne n meta)
    scaling := if payload.scaling == 0 then loaded.scaling else payload.scaling
    panning := payload.panning }

/-- The application state relevant to the change watcher: the graph
and the `suppressAutoArrange` flag. -/
structure AppState where
  graph : Graph
  suppress : Bool
deriving Repr

/-- One firing of the change watcher: a no-op while
`suppressAutoArrange` is set, otherwise a scheduled layout pass. -/
def watcherTick (env : Env) (s : AppState) : AppState :=
  if s.suppress then s else { s with graph := autoArrangeNodes env s.graph }

/-- `applyFlowPayload` at the application level: the suppress flag is
raised before any structural mutation and is still raised when the
restoration loop finishes (it is only cleared later by
`scheduleRefresh`). -/
def applyFlowPayloadApp (loaded : Graph) (payload : FlowPayload) : AppState :=
  { graph := applyFlowPayloadRestore loaded payload, suppress := true }

/-! ## `ProcessNode.makeKey` / `addFlowInterface`
(`src/nodes/ProcessNode.ts`) -/

/-- The `FlowSide` union of `ProcessNode`. -/
inductive FlowSide
  | input
  | output
  | knowHow
  | service
deriving Repr, DecidableEq

/-- The string interpolation of a `FlowSide` value. -/
def sideStr : FlowSide → String
  | .input => "input"
  | .output => "output"
  | .knowHow => "knowHow"
  | .service => "service"

/-- Keep set of the normalization regex: `[a-z0-9]`. -/
def keyKeepChar (c : Char) : Bool :=
  (('a' ≤ c) && (c ≤ 'z')) || (('0' ≤ c) && (c ≤ '9'))

/-- `.replace(/[^a-z0-9]+/g, "_")` on a list of characters: every
maximal run of non-kept characters becomes a single underscore
(`prevSep` tracks whether we are inside such a run). -/
def collapseRuns (prevSep : Bool) : List Char → List Char
  | [] => []
  | c :: rest =>
    if keyKeepChar c then c :: collapseRuns false rest
    else if prevSep then collapseRuns true rest
    else '_' :: collapseRuns true rest

/-- `source.toLowerCase().replace(/[^a-z0-9]+/g, "_").replace(/^_+|_+$/g, "")`. -/
def normalizeKey (s : String) : String :=
  let collapsed := collapseRuns false s.toLower.data
  ⟨((collapsed.dropWhile (fun c => c == '_')).reverse.dropWhile (fun c => c == '_')).reverse⟩

/-- The decimal rendering of a natural number used by the template
literal `` `${normalized}_${index}` ``. -/
def digitCharOf (d : Nat) : Char := Char.ofNat (48 + d)

def natDecRepr (n : Nat) : String :=
  if n = 0 then "0" else ⟨((Nat.digits 10 n).map digitCharOf).reverse⟩

/-- `` `${normalized}_${index}` ``. -/
def suffixKey (base : String) (i : Nat) : String :=
  base ++ "_" ++ natDecRepr i

/-- The collision loop of `makeKey`: try `base_i`, `base_(i+1)`, ...
until a key not present in the target collection is found.  The
JavaScript `while` loop is unbounded; it is modelled with explicit
fuel, which the freshness theorem shows is never exhausted when the
fuel is the size of the collection. -/
def makeKeyGo (taken : List String) (base : String) : Nat → Nat → String
  | 0, i => suffixKey base i
  | fuel + 1, i =>
    if suffixKey base i ∈ taken then makeKeyGo taken base fuel (i + 1)
    else suffixKey base i

/-- The key collections of a `ProcessNode`: the insertion-ordered key
lists of `this.inputs` and `this.outputs`. -/
structure PNodePorts where
  inputs : List String
  outputs : List String
deriving Repr, DecidableEq

/-- The collection `makeKey` checks against: `this.outputs` for
`output`/`knowHow` sides, `this.inputs` otherwise. -/
def targetCollection (node : PNodePorts) (side : FlowSide) : List String :=
  if side = FlowSide.output ∨ side = FlowSide.knowHow then node.outputs else node.inputs

/-- `makeKey(name, side, flowType, fieldPath)`: normalize
`fieldPath ?? `${side}_${flowType}_${name}``, then append `_1`, `_2`,
... while the key is already a property of the target collection. -/
def makeKey (node : PNodePorts) (name : String) (side : FlowSide) (flowType : String)
    (fieldPath : Option String) : String :=
  let source := fieldPath.getD (sideStr side ++ "_" ++ flowType ++ "_" ++ name)
  let normalized := normalizeKey source
  let taken := targetCollection node side
  if normalized ∈ taken then makeKeyGo taken normalized taken.length 1
  else normalized

/-- `addFlowInterface`: create the key and append it to the proper
collection (`addOutput` for `output`/`knowHow`, else `addInput`). -/
def addFlowInterface (node : PNodePorts) (name : String) (side : FlowSide)
    (flowType : String) (fieldPath : Option String) : PNodePorts × String :=
  let key := makeKey node name side flowType fieldPath
  if side = FlowSide.output ∨ side = FlowSide.knowHow then
    ({ node with outputs := node.outputs ++ [key] }, key)
  else
    ({ node with inputs := node.inputs ++ [key] }, key)

/-! ## Connection-arrow geometry (`parseBezierPath` / `bezierMidpoint`) -/

/-- The 8 coordinates of a cubic Bézier path
`M x1 y1 C cx1 cy1, cx2 cy2, x2 y2`. -/
structure Bez8 where
  x1 : ℚ
  y1 : ℚ
  cx1 : ℚ
  cy1 : ℚ
  cx2 : ℚ
  cy2 : ℚ
  x2 : ℚ
  y2 : ℚ
deriving Repr, DecidableEq

/-- `parseBezierPath(d)`, applied to the numbers matched by the global
regex `-?[\d.]+` (an empty list models a null match): 8 or more numbers
are a cubic Bézier (first 8 taken); exactly 4 to 7 numbers are a
straight line `M x1 y1 L x2 y2`, treated as a Bézier whose control
points coincide with its endpoints; fewer is a parse failure. -/
def parseBezierPath (nums : List ℚ) : Option Bez8 :=
  match nums with
  | [] => none
  | a :: b :: c :: d :: e :: f :: u :: v :: _ => some ⟨a, b, c, d, e, f, u, v⟩
  | x1 :: y1 :: x2 :: y2 :: _ => some ⟨x1, y1, x1, y1, x2, y2, x2, y2⟩
  | _ => none

/-- The result of `bezierMidpoint`: the point at `t = 0.5` and the
tangent vector there (the source converts the tangent to a degree
angle with `Math.atan2(dy, dx) * 180 / Math.PI`; the angle is
represented here by its defining vector `(dx, dy)`). -/
structure BezMid where
  mx : ℚ
  my : ℚ
  dx : ℚ
  dy : ℚ
deriving Repr, DecidableEq

/-- `bezierMidpoint(x1, y1, cx1, cy1, cx2, cy2, x2, y2)`: evaluate the
standard cubic Bézier basis and its derivative at `t = 0.5`. -/
def bezierMidpoint (x1 y1 cx1 cy1 cx2 cy2 x2 y2 : ℚ) : BezMid :=
  let t : ℚ := 1 / 2
  let t2 := t * t
  let t3 := t2 * t
  let mt := 1 - t
  let mt2 := mt * mt
  let mt3 := mt2 * mt
  let mx := mt3 * x1 + 3 * mt2 * t * cx1 + 3 * mt * t2 * cx2 + t3 * x2
  let my := mt3 * y1 + 3 * mt2 * t * cy1 + 3 * mt * t2 * cy2 + t3 * y2
  let dx := 3 * mt2 * (cx1 - x1) + 6 * mt * t * (cx2 - cx1) + 3 * t2 * (x2 - cx2)
  let dy := 3 * mt2 * (cy1 - y1) + 6 * mt * t * (cy2 - cy1) + 3 * t2 * (y2 - cy2)
  ⟨mx, my, dx, dy⟩

/-! ## Concrete instances used by counterexamples and witnesses -/

/-- A landscape browser window (1600×900) with nothing measurable in
the DOM yet. -/
def envLandscape : Env := ⟨1600, 900, fun _ => none⟩

/-- A portrait browser window (700×1200) with an empty DOM. -/
def envPortrait : Env := ⟨700, 1200, fun _ => none⟩

/-- The primary process node of the demo shape: titled `"Process"`,
two input ports, two output ports. -/
def exMain : LNode :=
  ⟨⟨0, .process, "Process", .input, "", [1, 2], [4, 5]⟩, ⟨0, 0⟩⟩

/-- A secondary process (any process that is not the main one). -/
def exSecondary : LNode :=
  ⟨⟨1, .process, "S", .input, "", [10], [11]⟩, ⟨0, 0⟩⟩

/-- An input resource whose single output port (20) is connected to
the secondary process's input port (10). -/
def exInputToSecondary : LNode :=
  ⟨⟨2, .resource, "In", .input, "", [], [20]⟩, ⟨0, 0⟩⟩

/-- Drift counterexample diagram: main process, secondary process, and
one input resource grouped under the secondary process. -/
def gDrift : Graph := ⟨[exMain, exSecondary, exInputToSecondary], [⟨20, 10⟩], 1, ⟨0, 0⟩⟩

/-- Two processes titled `"A"` and `"Folyamat"` plus one orphan input
resource (no connection on its port). -/
def sgOrphan : SGraph :=
  ⟨[⟨100, .process, "A", .input, "", [1], [2]⟩,
    ⟨101, .process, "Folyamat", .input, "", [3], [4]⟩,
    ⟨102, .resource, "R", .input, "", [], [30]⟩], [], 1, ⟨0, 0⟩⟩

/-- Modelled from the spec: the claims' notion of primary process, `the
process titled "Process"/"Folyamat", or the first process node if none
is so titled`.  This is the definition the claim asserts; it is
compared against the source's `mainProcessOf`, which tests only the
title `"Process"`. -/
def specPrimaryProcess (sg : SGraph) : Option NodeData :=
  ((processNodesOf sg).find? (fun n => n.title == "Process" || n.title == "Folyamat"))
    <|> (processNodesOf sg).head?

/-- Portrait diagram with one process and two mechanism (machine)
resources, for measuring the portrait mechanism-column spacing. -/
def gMechPortrait : Graph :=
  ⟨[exMain,
    ⟨⟨1, .resource, "M1", .machine, "", [], [30]⟩, ⟨0, 0⟩⟩,
    ⟨⟨2, .resource, "M2", .machine, "", [], [31]⟩, ⟨0, 0⟩⟩], [], 1, ⟨0, 0⟩⟩

/-- Landscape counterexample diagram for the mechanism-row center: two
processes and one mechanism resource. -/
def gMechTwoProcs : Graph :=
  ⟨[exMain, exSecondary,
    ⟨⟨2, .resource, "M", .machine, "", [], [30]⟩, ⟨0, 0⟩⟩], [], 1, ⟨0, 0⟩⟩

/-- Single process plus one mechanism resource (landscape witness). -/
def gMechSingle : Graph :=
  ⟨[exMain, ⟨⟨1, .resource, "M", .machine, "", [], [30]⟩, ⟨0, 0⟩⟩], [], 1, ⟨0, 0⟩⟩

/-- The spec's §8 scenario: one process titled "Process", two inputs,
two outputs, one mechanism, the five resources wired to the process. -/
def gScenario : Graph :=
  ⟨[⟨⟨0, .process, "Process", .input, "", [1, 2, 3], [4, 5]⟩, ⟨0, 0⟩⟩,
    ⟨⟨10, .resource, "I1", .input, "", [], [11]⟩, ⟨0, 0⟩⟩,
    ⟨⟨20, .resource, "I2", .input, "", [], [21]⟩, ⟨0, 0⟩⟩,
    ⟨⟨30, .resource, "O1", .output, "", [31], [32]⟩, ⟨0, 0⟩⟩,
    ⟨⟨40, .resource, "O2", .output, "", [41], [42]⟩, ⟨0, 0⟩⟩,
    ⟨⟨50, .resource, "M", .machine, "", [], [51]⟩, ⟨0, 0⟩⟩],
   [⟨11, 1⟩, ⟨21, 2⟩, ⟨4, 31⟩, ⟨5, 41⟩, ⟨51, 3⟩], 1, ⟨0, 0⟩⟩

/-- The same landscape environment with every element measurable at
exactly the documented fallback sizes (200×180 for the process,
200×120 for the resources). -/
def envMeasuredFallback : Env :=
  ⟨1600, 900, fun nid => some (if nid = 0 then ⟨200, 180⟩ else ⟨200, 120⟩)⟩

/-- A process with one input port connected from one input resource
(for the grouping witness): the resource's port 20 feeds the process's
port 1. -/
def sgConnected : SGraph :=
  ⟨[⟨0, .process, "P1", .input, "", [1], [2]⟩,
    ⟨1, .process, "Process", .input, "", [3], [4]⟩,
    ⟨2, .resource, "R", .input, "", [], [20]⟩], [⟨20, 1⟩], 1, ⟨0, 0⟩⟩

/-- `Math.min` fold seeded with `+Infinity` (`none`). -/
def optMin (acc : Option ℚ) (v : ℚ) : Option ℚ :=
  match acc with
  | none => some v
  | some a => some (min a v)

/-- The documented per-kind fallback size: 200×180 for process nodes,
200×120 for resource nodes. -/
def nodeFallback (n : NodeData) : Size :=
  if n.kind == NodeKind.process then ⟨200, 180⟩ else ⟨200, 120⟩

/-- The horizontal center of the union of the given nodes' placed
extents (`[x, x + width]` per node, width measured with the node-kind
fallback), under the position assignment `pos`. -/
def extentCenterX (env : Env) (sg : SGraph) (pos : Nat → Point) (ns : List NodeData) : ℚ :=
  match ns.foldl (fun acc n => optMin acc (pos n.id).x) none,
        ns.foldl (fun acc n =>
          optMax acc ((pos n.id).x + (getNodeSize env sg n.id (nodeFallback n)).width)) none with
  | some a, some b => (a + b) / 2
  | _, _ => 0

/-- The position the landscape branch writes for the main process:
top-left corner so that the node is horizontally centered on `centerX`
and its vertical center sits 40 above `centerY`. -/
def landscapeMainPos (env : Env) (sg : SGraph) (P : NodeData) : Point :=
  ⟨centerXOf env sg - (getNodeSize env sg P.id ⟨200, 180⟩).width / 2,
   centerYOf env sg - (getNodeSize env sg P.id ⟨200, 180⟩).height / 2 - 40⟩

/-! ## Theorems -/

/-- C9: `parseBezierPath` maps a path with exactly 4 numbers to the
degenerate Bézier whose control points equal its endpoints, and
`bezierMidpoint` at `t = 1/2` then yields the segment midpoint
`((x1+x2)/2, (y1+y2)/2)` and a tangent vector `(3/2)·(x2−x1, y2−y1)`,
a positive multiple of the segment direction, so the tangent angle is
`atan2(y2−y1, x2−x1)` (stated as equality of complex arguments). -/
theorem flow_c9_bezier_straight_line (x1 y1 x2 y2 : ℚ) :
    parseBezierPath [x1, y1, x2, y2] = some ⟨x1, y1, x1, y1, x2, y2, x2, y2⟩ ∧
    (bezierMidpoint x1 y1 x1 y1 x2 y2 x2 y2).mx = (x1 + x2) / 2 ∧
    (bezierMidpoint x1 y1 x1 y1 x2 y2 x2 y2).my = (y1 + y2) / 2 ∧
    (bezierMidpoint x1 y1 x1 y1 x2 y2 x2 y2).dx = 3 / 2 * (x2 - x1) ∧
    (bezierMidpoint x1 y1 x1 y1 x2 y2 x2 y2).dy = 3 / 2 * (y2 - y1) ∧
    Complex.arg (((bezierMidpoint x1 y1 x1 y1 x2 y2 x2 y2).dx : ℂ) +
        ((bezierMidpoint x1 y1 x1 y1 x2 y2 x2 y2).dy : ℂ) * Complex.I) =
      Complex.arg (((x2 - x1 : ℚ) : ℂ) + ((y2 - y1 : ℚ) : ℂ) * Complex.I) := by
  have hdx : (bezierMidpoint x1 y1 x1 y1 x2 y2 x2 y2).dx = 3 / 2 * (x2 - x1) := by
    simp only [bezierMidpoint]; ring
  have hdy : (bezierMidpoint x1 y1 x1 y1 x2 y2 x2 y2).dy = 3 / 2 * (y2 - y1) := by
    simp only [bezierMidpoint]; ring
  refine ⟨rfl, by simp only [bezierMidpoint]; ring, by simp only [bezierMidpoint]; ring,
    hdx, hdy, ?_⟩
  rw [hdx, hdy]
  have hmul : ((3 / 2 * (x2 - x1) : ℚ) : ℂ) + ((3 / 2 * (y2 - y1) : ℚ) : ℂ) * Complex.I =
      ((3 / 2 : ℝ) : ℂ) * (((x2 - x1 : ℚ) : ℂ) + ((y2 - y1 : ℚ) : ℂ) * Complex.I) := by
    push_cast
    ring
  rw [hmul, Complex.arg_real_mul _ (by norm_num)]

/-- The decimal digit characters are injective below 10. -/
theorem digitCharOf_inj_aux : ∀ a < 10, ∀ b < 10, digitCharOf a = digitCharOf b → a = b := by
  decide

theorem digitCharOf_inj {a b : Nat} (ha : a < 10) (hb : b < 10)
    (h : digitCharOf a = digitCharOf b) : a = b :=
  digitCharOf_inj_aux a ha b hb h

/-- Mapping `digitCharOf` over digit lists is injective. -/
theorem map_digitCharOf_inj : ∀ l1 l2 : List Nat, (∀ d ∈ l1, d < 10) → (∀ d ∈ l2, d < 10) →
    l1.map digitCharOf = l2.map digitCharOf → l1 = l2 := by
  intro l1
  induction l1 with
  | nil =>
    intro l2 _ _ h
    cases l2 with
    | nil => rfl
    | cons x xs => simp at h
  | cons a as ih =>
    intro l2 h1 h2 h
    cases l2 with
    | nil => simp at h
    | cons x xs =>
      simp only [List.map_cons, List.cons.injEq] at h
      have ha : a = x := digitCharOf_inj (h1 a (by simp)) (h2 x (by simp)) h.1
      have : as = xs := ih xs (fun d hd => h1 d (by simp [hd])) (fun d hd => h2 d (by simp [hd])) h.2
      rw [ha, this]

/-- The decimal rendering of a natural number is injective. -/
theorem natDecRepr_inj : Function.Injective natDecRepr := by
  intro a b h
  unfold natDecRepr at h
  by_cases ha : a = 0 <;> by_cases hb : b = 0
  · rw [ha, hb]
  · exfalso
    rw [if_pos ha, if_neg hb] at h
    have hdata : ('0' :: []) = ((Nat.digits 10 b).map digitCharOf).reverse :=
      congrArg String.data h
    have : (Nat.digits 10 b).map digitCharOf = ['0'] := by
      have := congrArg List.reverse hdata
      simpa using this.symm
    have hd : Nat.digits 10 b = [0] := by
      cases hdig : Nat.digits 10 b with
      | nil => rw [hdig] at this; simp at this
      | cons d rest =>
        rw [hdig] at this
        simp only [List.map_cons, List.cons.injEq] at this
        have hrest : rest = [] := by
          have := this.2
          cases rest with
          | nil => rfl
          | cons r rs => simp at this
        have hdlt : d < 10 := Nat.digits_lt_base (by norm_num) (by rw [hdig]; simp)
        have : d = 0 := digitCharOf_inj hdlt (by norm_num)
          (by rw [this.1]; decide)
        rw [hrest, this]
    have := Nat.ofDigits_digits 10 b
    rw [hd] at this
    simp [Nat.ofDigits] at this
    exact hb this.symm
  · exfalso
    rw [if_neg ha, if_pos hb] at h
    have hdata : ((Nat.digits 10 a).map digitCharOf).reverse = ('0' :: []) :=
      congrArg String.data h
    have : (Nat.digits 10 a).map digitCharOf = ['0'] := by
      have := congrArg List.reverse hdata
      simpa using this
    have hd : Nat.digits 10 a = [0] := by
      cases hdig : Nat.digits 10 a with
      | nil => rw [hdig] at this; simp at this
      | cons d rest =>
        rw [hdig] at this
        simp only [List.map_cons, List.cons.injEq] at this
        have hrest : rest = [] := by
          have := this.2
          cases rest with
          | nil => rfl
          | cons r rs => simp at this
        have hdlt : d < 10 := Nat.digits_lt_base (by norm_num) (by rw [hdig]; simp)
        have : d = 0 := digitCharOf_inj hdlt (by norm_num)
          (by rw [this.1]; decide)
        rw [hrest, this]
    have := Nat.ofDigits_digits 10 a
    rw [hd] at this
    simp [Nat.ofDigits] at this
    exact ha this.symm
  · rw [if_neg ha, if_neg hb] at h
    have hdata := congrArg String.data h
    have hrev := congrArg List.reverse hdata
    simp only [List.reverse_reverse] at hrev
    have hdig : Nat.digits 10 a = Nat.digits 10 b :=
      map_digitCharOf_inj _ _
        (fun d hd => Nat.digits_lt_base (by norm_num) hd)
        (fun d hd => Nat.digits_lt_base (by norm_num) hd) hrev
    have h1 := Nat.ofDigits_digits 10 a
    have h2 := Nat.ofDigits_digits 10 b
    rw [← h1, ← h2, hdig]

/-- String append acts on the underlying character lists. -/
theorem string_data_append (s t : String) : (s ++ t).data = s.data ++ t.data := rfl

/-- `` `${base}_${i}` `` is injective in the index. -/
theorem suffixKey_inj (base : String) : Function.Injective (suffixKey base) := by
  intro i j h
  unfold suffixKey at h
  have hdata := congrArg String.data h
  rw [string_data_append, string_data_append, string_data_append, string_data_append] at hdata
  have hcancel : (natDecRepr i).data = (natDecRepr j).data := List.append_cancel_left hdata
  exact natDecRepr_inj (congrArg String.mk hcancel)

/-- `natDecRepr` is never the empty string. -/
theorem natDecRepr_ne_nil (i : Nat) : (natDecRepr i).data ≠ [] := by
  unfold natDecRepr
  by_cases h : i = 0
  · rw [if_pos h]; simp
  · rw [if_neg h]
    simp only [ne_eq]
    intro hc
    have : (Nat.digits 10 i).map digitCharOf = [] := by
      have := congrArg List.reverse hc
      simpa using this
    have : Nat.digits 10 i = [] := by
      cases hd : Nat.digits 10 i with
      | nil => rfl
      | cons x xs => rw [hd] at this; simp at this
    exact h (by simpa [Nat.digits_eq_nil_iff_eq_zero] using this)

/-- A suffixed key is never the bare base (it is strictly longer). -/
theorem suffixKey_ne_base (base : String) (i : Nat) : suffixKey base i ≠ base := by
  intro h
  have hlen : (suffixKey base i).data.length = base.data.length :=
    congrArg (fun s => s.data.length) h
  have hexp : (suffixKey base i).data = base.data ++ "_".data ++ (natDecRepr i).data := by
    simp [suffixKey, string_data_append]
  rw [hexp, List.length_append, List.length_append] at hlen
  have hne : (natDecRepr i).data.length ≠ 0 := by
    intro h0
    exact natDecRepr_ne_nil i (List.length_eq_zero.mp h0)
  have hu : ("_" : String).data.length = 1 := rfl
  omega

/-- Pigeonhole for the collision loop: among `taken.length` candidate
suffixed keys there is a free one (given the bare base is taken). -/
theorem exists_free_suffix (taken : List String) (base : String) (hbase : base ∈ taken) :
    ∃ j, j < taken.length ∧ suffixKey base (1 + j) ∉ taken := by
  by_contra hcon
  push_neg at hcon
  have hsub : (Finset.range taken.length).image (fun j => suffixKey base (1 + j)) ⊆
      taken.toFinset := by
    intro x hx
    simp only [Finset.mem_image, Finset.mem_range] at hx
    obtain ⟨j, hj, rfl⟩ := hx
    exact List.mem_toFinset.mpr (hcon j hj)
  have hinj : Function.Injective (fun j => suffixKey base (1 + j)) := by
    intro x y hxy
    have := suffixKey_inj base hxy
    omega
  have hcard : ((Finset.range taken.length).image (fun j => suffixKey base (1 + j))).card =
      taken.length := by
    rw [Finset.card_image_of_injective _ hinj, Finset.card_range]
  have hbase_notin : base ∉ (Finset.range taken.length).image (fun j => suffixKey base (1 + j)) := by
    intro hb
    simp only [Finset.mem_image, Finset.mem_range] at hb
    obtain ⟨j, _, hj⟩ := hb
    exact suffixKey_ne_base base (1 + j) hj
  have hins : insert base ((Finset.range taken.length).image (fun j => suffixKey base (1 + j))) ⊆
      taken.toFinset := by
    intro x hx
    rcases Finset.mem_insert.mp hx with h | h
    · rw [h]; exact List.mem_toFinset.mpr hbase
    · exact hsub h
  have hc1 : taken.length + 1 ≤ taken.toFinset.card := by
    have := Finset.card_le_card hins
    rwa [Finset.card_insert_of_not_mem hbase_notin, hcard] at this
  have hc2 : taken.toFinset.card ≤ taken.length := List.toFinset_card_le taken
  omega

/-- The collision loop returns a key outside the collection whenever a
free candidate exists within the fuel. -/
theorem makeKeyGo_not_mem (taken : List String) (base : String) :
    ∀ fuel i, (∃ j, j < fuel ∧ suffixKey base (i + j) ∉ taken) →
    makeKeyGo taken base fuel i ∉ taken := by
  intro fuel
  induction fuel with
  | zero =>
    intro i h
    obtain ⟨j, hj, _⟩ := h
    omega
  | succ fuel ih =>
    intro i h
    simp only [makeKeyGo]
    by_cases hmem : suffixKey base i ∈ taken
    · rw [if_pos hmem]
      apply ih
      obtain ⟨j, hj, hfree⟩ := h
      cases j with
      | zero =>
        exfalso
        apply hfree
        simpa using hmem
      | succ j =>
        refine ⟨j, by omega, ?_⟩
        have : i + 1 + j = i + (j + 1) := by omega
        rw [this]
        exact hfree
    · rw [if_neg hmem]
      exact hmem

/-- C10: the key produced by `makeKey` is never already a key of the
target interface collection, for any collection state (hence for every
state reachable by repeated `addFlowInterface` calls): the suffix loop
keeps appending `_1`, `_2`, ... until a free key is found, so
`addFlowInterface` never overwrites or shadows an existing port. -/
theorem flow_c10_makeKey_fresh (node : PNodePorts) (name : String) (side : FlowSide)
    (flowType : String) (fieldPath : Option String) :
    makeKey node name side flowType fieldPath ∉ targetCollection node side ∧
    (addFlowInterface node name side flowType fieldPath).1.inputs.length +
      (addFlowInterface node name side flowType fieldPath).1.outputs.length =
      node.inputs.length + node.outputs.length + 1 := by
  constructor
  · unfold makeKey
    by_cases h : normalizeKey ((fieldPath).getD
        (sideStr side ++ "_" ++ flowType ++ "_" ++ name)) ∈ targetCollection node side
    · rw [if_pos h]
      apply makeKeyGo_not_mem
      obtain ⟨j, hj, hfree⟩ := exists_free_suffix (targetCollection node side) _ h
      exact ⟨j, hj, hfree⟩
    · rw [if_neg h]
      exact h
  · unfold addFlowInterface
    by_cases hside : side = FlowSide.output ∨ side = FlowSide.knowHow
    · rw [if_pos hside]
      simp
      omega
    · rw [if_neg hside]
      simp
      omega

/-- Applying position writes does not change the static data of any
node. -/
theorem applyWrites_statG (ws : Writes) (nodes : List LNode) :
    (applyWrites ws nodes).map (·.toNodeData) = nodes.map (·.toNodeData) := by
  unfold applyWrites
  rw [List.map_map]
  apply List.map_congr_left
  intro n _
  cases h : ws.find? (fun e => e.1 == n.id) with
  | none => simp [h]
  | some e => simp [h]

/-- C7: a layout pass only writes node positions: the static view of
the graph — node ids, kinds, titles, port lists, the connection set,
and the view transform — is unchanged, and no node is added or
removed. -/
theorem flow_c7_frame (env : Env) (g : Graph) :
    statG (autoArrangeNodes env g) = statG g ∧
    (autoArrangeNodes env g).connections = g.connections ∧
    (autoArrangeNodes env g).nodes.length = g.nodes.length ∧
    (autoArrangeNodes env g).nodes.map (fun n => n.id) = g.nodes.map (fun n => n.id) ∧
    (autoArrangeNodes env g).nodes.map (fun n => n.inputs) = g.nodes.map (fun n => n.inputs) ∧
    (autoArrangeNodes env g).nodes.map (fun n => n.outputs) = g.nodes.map (fun n => n.outputs) := by
  have hmapid : ∀ (l : List LNode),
      l.map (fun n => n.id) = (l.map (·.toNodeData)).map (fun d => d.id) := by
    intro l; rw [List.map_map]; rfl
  have hmapin : ∀ (l : List LNode),
      l.map (fun n => n.inputs) = (l.map (·.toNodeData)).map (fun d => d.inputs) := by
    intro l; rw [List.map_map]; rfl
  have hmapout : ∀ (l : List LNode),
      l.map (fun n => n.outputs) = (l.map (·.toNodeData)).map (fun d => d.outputs) := by
    intro l; rw [List.map_map]; rfl
  unfold autoArrangeNodes
  by_cases h : g.nodes.isEmpty
  · rw [if_pos h]
    exact ⟨rfl, rfl, rfl, rfl, rfl, rfl⟩
  · rw [if_neg h]
    refine ⟨?_, rfl, ?_, ?_, ?_, ?_⟩
    · unfold statG
      simp only
      rw [applyWrites_statG]
    · unfold applyWrites
      simp
    · rw [hmapid, hmapid, applyWrites_statG]
    · rw [hmapin, hmapin, applyWrites_statG]
    · rw [hmapout, hmapout, applyWrites_statG]

/-- C8: when a node's element is not in the document the size
measurement returns exactly the caller's fallback, and a pass over an
entirely unmeasured diagram completes normally, behaving exactly as if
every resource measured 200×120 and every process 200×180 (the
documented fallbacks used at the call sites). -/
theorem flow_c8_fallback_size :
    (∀ (env : Env) (sg : SGraph) (nid : Nat) (fb : Size),
      env.dom nid = none → getNodeSize env sg nid fb = fb) ∧
    autoArrangeNodes envLandscape gScenario = autoArrangeNodes envMeasuredFallback gScenario := by
  constructor
  · intro env sg nid fb h
    unfold getNodeSize
    rw [h]
  · simp +decide [autoArrangeNodes, autoArrangeCore, autoArrangeLandscape, autoArrangePortrait, inputGroupsFold, outputGroupsFold,
      posOf, statG, basePosOf, envLandscape, envMeasuredFallback, gScenario, exMain,
      centerXOf, centerYOf, mainProcessOf, instBEqOfDecidableEq,
      processNodesOf, resourceNodesOf, inputResourcesOf, outputResourcesOf, mechanismResourcesOf,
      getNodeSize, setPos, readPos, pushWrites, applyWrites, placeLeftOfProcess, placeLeftWrites,
      placeLeftBottom, placeRightOfProcess, placeRightWrites, placeRightMaxRight, placeRightBottom,
      mechRowWrites, stackOffsets, stackBottom, optMax, groupOwners, groupFor, firstDedup,
      firstDedupGo, inputOwnerId, outputOwnerId, interfaceEntries, mapGet, List.find?, List.filter,
      List.filterMap, List.foldl]

/-- Witness for C8: the fallback branch evaluated at a concrete
unmeasured node. -/
theorem flow_c8_fallback_witness :
    getNodeSize envLandscape (statG gScenario) 10 ⟨200, 120⟩ = ⟨200, 120⟩ :=
  flow_c8_fallback_size.1 envLandscape (statG gScenario) 10 ⟨200, 120⟩ rfl

/-- C2 counterexample: with processes titled `"A"` then `"Folyamat"`,
the claim designates the `"Folyamat"` process (id 101) as primary, but
the code tests only the exact title `"Process"`, so the orphan input
resource (id 102) lands in the group of the FIRST process (id 100) and
the claimed primary's group stays empty. -/
theorem flow_c2_folyamat_not_primary_cex :
    (specPrimaryProcess sgOrphan).map (fun n => n.id) = some 101 ∧
    sgOrphan.connections = [] ∧
    groupFor (inputOwnerId sgOrphan (mainProcessOf sgOrphan)) (inputResourcesOf sgOrphan) 101
      = [] ∧
    (groupFor (inputOwnerId sgOrphan (mainProcessOf sgOrphan))
      (inputResourcesOf sgOrphan) 100).map (fun n => n.id) = [102] := by
  refine ⟨by decide, rfl, by decide, by decide⟩

/-- C2 (amended): an orphan input or output resource — one whose
grouping port has no incident connection — is grouped under the
process the code designates as primary: the process titled exactly
`"Process"`, or else the first process node (the title `"Folyamat"`
plays no role). -/
theorem flow_c2_orphan_grouped_under_primary (sg : SGraph) (P : NodeData)
    (hmain : mainProcessOf sg = some P) :
    (∀ r ∈ inputResourcesOf sg,
      (∀ p, r.outputs.head? = some p →
        sg.connections.find? (fun c => c.fromPort == p) = none) →
      r ∈ groupFor (inputOwnerId sg (mainProcessOf sg)) (inputResourcesOf sg) P.id) ∧
    (∀ r ∈ outputResourcesOf sg,
      (∀ p, r.inputs.head? = some p →
        sg.connections.find? (fun c => c.toPort == p) = none) →
      r ∈ groupFor (outputOwnerId sg (mainProcessOf sg)) (outputResourcesOf sg) P.id) := by
  constructor
  · intro r hr horphan
    apply List.mem_filter.mpr
    refine ⟨hr, ?_⟩
    have howner : inputOwnerId sg (mainProcessOf sg) r = some P.id := by
      unfold inputOwnerId
      cases hhead : r.outputs.head? with
      | none => rw [hmain]; rfl
      | some p =>
        simp only [horphan p hhead, hmain]
        rfl
    simp [howner]
  · intro r hr horphan
    apply List.mem_filter.mpr
    refine ⟨hr, ?_⟩
    have howner : outputOwnerId sg (mainProcessOf sg) r = some P.id := by
      unfold outputOwnerId
      cases hhead : r.inputs.head? with
      | none => rw [hmain]; rfl
      | some p =>
        simp only [horphan p hhead, hmain]
        rfl
    simp [howner]

/-- Witness for C2: the concrete orphan resource 102 is grouped under
the code's primary process (id 100, titled "A", the first process). -/
theorem flow_c2_orphan_witness :
    (⟨102, .resource, "R", .input, "", [], [30]⟩ : NodeData) ∈
      groupFor (inputOwnerId sgOrphan (mainProcessOf sgOrphan)) (inputResourcesOf sgOrphan)
        100 :=
  (flow_c2_orphan_grouped_under_primary sgOrphan
      ⟨100, .process, "A", .input, "", [1], [2]⟩ (by decide)).1
    ⟨102, .resource, "R", .input, "", [], [30]⟩ (by decide) (fun _ _ => rfl)

/-- `foldl` form of the interface map build, as an append of per-node
entry blocks. -/
theorem interfaceEntries_go (nodes : List NodeData) (init : List (Nat × NodeData)) :
    nodes.foldl
      (fun m n => m ++ (n.inputs.map (fun p => (p, n))) ++ (n.outputs.map (fun p => (p, n))))
      init
    = init ++ (nodes.map
        (fun n => n.inputs.map (fun p => (p, n)) ++ n.outputs.map (fun p => (p, n)))).flatten := by
  induction nodes generalizing init with
  | nil => simp
  | cons n rest ih =>
    simp only [List.foldl_cons, List.map_cons, List.flatten_cons]
    rw [ih]
    simp [List.append_assoc]

theorem interfaceEntries_eq (nodes : List NodeData) :
    interfaceEntries nodes = (nodes.map
      (fun n => n.inputs.map (fun p => (p, n)) ++ n.outputs.map (fun p => (p, n)))).flatten := by
  unfold interfaceEntries
  rw [interfaceEntries_go]
  simp

/-- Membership in the interface map entries. -/
theorem mem_interfaceEntries (nodes : List NodeData) (e : Nat × NodeData) :
    e ∈ interfaceEntries nodes ↔
      ∃ n, n ∈ nodes ∧ e.2 = n ∧ e.1 ∈ n.inputs ++ n.outputs := by
  rw [interfaceEntries_eq]
  rw [List.mem_flatten]
  constructor
  · rintro ⟨s, hs, hes⟩
    rw [List.mem_map] at hs
    obtain ⟨n, hn, rfl⟩ := hs
    rcases List.mem_append.mp hes with h | h <;>
      [skip; skip] <;>
      · rw [List.mem_map] at h
        obtain ⟨p, hp, rfl⟩ := h
        exact ⟨n, hn, rfl, by simp [hp]⟩
  · rintro ⟨n, hn, he2, he1⟩
    refine ⟨n.inputs.map (fun p => (p, n)) ++ n.outputs.map (fun p => (p, n)),
      List.mem_map.mpr ⟨n, hn, rfl⟩, ?_⟩
    rcases List.mem_append.mp he1 with h | h
    · exact List.mem_append.mpr (Or.inl (List.mem_map.mpr ⟨e.1, h, by rw [← he2]⟩))
    · exact List.mem_append.mpr (Or.inr (List.mem_map.mpr ⟨e.1, h, by rw [← he2]⟩))

/-- Under globally distinct port ids, a port id belongs to the port
list of at most one node (up to value equality). -/
theorem unique_port_owner (k : Nat) :
    ∀ nodes : List NodeData,
      ((nodes.map (fun n => n.inputs ++ n.outputs)).flatten).Nodup →
      ∀ n1 ∈ nodes, ∀ n2 ∈ nodes,
        k ∈ n1.inputs ++ n1.outputs → k ∈ n2.inputs ++ n2.outputs → n1 = n2 := by
  intro nodes
  induction nodes with
  | nil => intro _ n1 h1; cases h1
  | cons n rest ih =>
    intro hnodup n1 h1 n2 h2 hk1 hk2
    simp only [List.map_cons, List.flatten_cons] at hnodup
    rw [List.nodup_append] at hnodup
    obtain ⟨hn1, hn2, hdisj⟩ := hnodup
    rcases List.mem_cons.mp h1 with h1eq | h1r
    · rcases List.mem_cons.mp h2 with h2eq | h2r
      · rw [h1eq, h2eq]
      · exfalso
        apply hdisj (h1eq ▸ hk1)
        rw [List.mem_flatten]
        exact ⟨n2.inputs ++ n2.outputs, List.mem_map.mpr ⟨n2, h2r, rfl⟩, hk2⟩
    · rcases List.mem_cons.mp h2 with h2eq | h2r
      · exfalso
        apply hdisj (h2eq ▸ hk2)
        rw [List.mem_flatten]
        exact ⟨n1.inputs ++ n1.outputs, List.mem_map.mpr ⟨n1, h1r, rfl⟩, hk1⟩
      · exact ih hn2 n1 h1r n2 h2r hk1 hk2

/-- `find?` on an entry list all of whose matching entries carry the
same value finds that value, provided a matching entry exists. -/
theorem find?_key_eq (k : Nat) (P : NodeData) :
    ∀ l : List (Nat × NodeData), (∃ e ∈ l, e.1 = k) → (∀ e ∈ l, e.1 = k → e.2 = P) →
    (l.find? (fun e => e.1 == k)).map (·.2) = some P := by
  intro l
  induction l with
  | nil =>
    rintro ⟨e, he, _⟩
    cases he
  | cons a rest ih =>
    intro hex hall
    by_cases ha : a.1 = k
    · rw [List.find?_cons_of_pos _ (by simp [ha])]
      simp [hall a (by simp) ha]
    · rw [List.find?_cons_of_neg _ (by simp [ha])]
      apply ih
      · obtain ⟨e, he, hk⟩ := hex
        rcases List.mem_cons.mp he with rfl | he
        · exact absurd hk ha
        · exact ⟨e, he, hk⟩
      · intro e he hk
        exact hall e (List.mem_cons.mpr (Or.inr he)) hk

/-- The interface map resolves a port id to its owning node when port
ids are globally distinct. -/
theorem mapGet_interfaceEntries (sgnodes : List NodeData) (P : NodeData) (k : Nat)
    (hports : ((sgnodes.map (fun n => n.inputs ++ n.outputs)).flatten).Nodup)
    (hP : P ∈ sgnodes) (hk : k ∈ P.inputs ++ P.outputs) :
    mapGet (interfaceEntries sgnodes) k = some P := by
  unfold mapGet
  apply find?_key_eq
  · have : ((k, P) : Nat × NodeData) ∈ interfaceEntries sgnodes :=
      (mem_interfaceEntries sgnodes (k, P)).mpr ⟨P, hP, rfl, hk⟩
    exact ⟨(k, P), List.mem_reverse.mpr this, rfl⟩
  · intro e he hek
    have hmem := (mem_interfaceEntries sgnodes e).mp (List.mem_reverse.mp he)
    obtain ⟨n, hn, he2, he1⟩ := hmem
    rw [he2]
    exact unique_port_owner k sgnodes hports n hn P hP (hek ▸ he1) hk

/-- A singleton `filter` result pins down `find?`. -/
theorem find?_of_filter_singleton {α : Type} (f : α → Bool) (c : α) :
    ∀ l : List α, l.filter f = [c] → l.find? f = some c := by
  intro l
  induction l with
  | nil => intro h; simp at h
  | cons a rest ih =>
    intro h
    by_cases ha : f a
    · rw [List.filter_cons_of_pos ha] at h
      rw [List.find?_cons_of_pos _ ha]
      simp only [List.cons.injEq] at h
      rw [h.1]
    · rw [List.filter_cons_of_neg (by simpa using ha)] at h
      rw [List.find?_cons_of_neg _ (by simpa using ha)]
      exact ih h

/-- C3: a resource connected through its grouping port by exactly one
connection to a process node `P` is placed in `P`'s group (input
resources via their first output port, output resources via their
first input port), and in no other process's group — in particular not
the primary's unless `P` is the primary. -/
theorem flow_c3_grouping_correct (sg : SGraph) (P r : NodeData) (p : Nat) (c : Connection)
    (hports : ((sg.nodes.map (fun n => n.inputs ++ n.outputs)).flatten).Nodup)
    (hPmem : P ∈ sg.nodes) (hPkind : P.kind = NodeKind.process) :
    (r ∈ inputResourcesOf sg → r.outputs.head? = some p →
      sg.connections.filter (fun c2 => c2.fromPort == p) = [c] →
      c.toPort ∈ P.inputs ++ P.outputs →
      (r ∈ groupFor (inputOwnerId sg (mainProcessOf sg)) (inputResourcesOf sg) P.id ∧
       ∀ q, q ≠ P.id →
         r ∉ groupFor (inputOwnerId sg (mainProcessOf sg)) (inputResourcesOf sg) q)) ∧
    (r ∈ outputResourcesOf sg → r.inputs.head? = some p →
      sg.connections.filter (fun c2 => c2.toPort == p) = [c] →
      c.fromPort ∈ P.inputs ++ P.outputs →
      (r ∈ groupFor (outputOwnerId sg (mainProcessOf sg)) (outputResourcesOf sg) P.id ∧
       ∀ q, q ≠ P.id →
         r ∉ groupFor (outputOwnerId sg (mainProcessOf sg)) (outputResourcesOf sg) q)) := by
  constructor
  · intro hr hhead hconn htoP
    have howner : inputOwnerId sg (mainProcessOf sg) r = some P.id := by
      unfold inputOwnerId
      simp only [hhead, find?_of_filter_singleton _ c _ hconn,
        mapGet_interfaceEntries sg.nodes P c.toPort hports hPmem htoP]
      simp [hPkind]
    constructor
    · exact List.mem_filter.mpr ⟨hr, by simp [howner]⟩
    · intro q hq hmem
      have := (List.mem_filter.mp hmem).2
      rw [howner] at this
      simp at this
      exact hq this.symm
  · intro hr hhead hconn hfromP
    have howner : outputOwnerId sg (mainProcessOf sg) r = some P.id := by
      unfold outputOwnerId
      simp only [hhead, find?_of_filter_singleton _ c _ hconn,
        mapGet_interfaceEntries sg.nodes P c.fromPort hports hPmem hfromP]
      simp [hPkind]
    constructor
    · exact List.mem_filter.mpr ⟨hr, by simp [howner]⟩
    · intro q hq hmem
      have := (List.mem_filter.mp hmem).2
      rw [howner] at this
      simp at this
      exact hq this.symm

/-- Witness for C3: in `sgConnected` the input resource 2 is connected
to process 0 ("P1"), which is NOT the primary (the primary is process
1, titled "Process"), and it is grouped under process 0. -/
theorem flow_c3_grouping_witness :
    (⟨2, .resource, "R", .input, "", [], [20]⟩ : NodeData) ∈
      groupFor (inputOwnerId sgConnected (mainProcessOf sgConnected))
        (inputResourcesOf sgConnected) 0 ∧
    (⟨2, .resource, "R", .input, "", [], [20]⟩ : NodeData) ∉
      groupFor (inputOwnerId sgConnected (mainProcessOf sgConnected))
        (inputResourcesOf sgConnected) 1 := by
  have h := (flow_c3_grouping_correct sgConnected
    ⟨0, .process, "P1", .input, "", [1], [2]⟩
    ⟨2, .resource, "R", .input, "", [], [20]⟩ 20 ⟨20, 1⟩
    (by decide) (by decide) (by decide)).1
    (by decide) (by decide) (by decide) (by decide)
  exact ⟨h.1, h.2 1 (by decide)⟩

/-- Restoring a node from its snapshot keeps its id and forces its
position to the saved one. -/
theorem restoreOne_id_position (n : LNode) (meta : SavedNodeMeta) :
    (restoreOne n meta).id = n.id ∧ (restoreOne n meta).position = meta.position := by
  unfold restoreOne
  constructor <;> (simp only; split <;> split <;> split <;> simp)

/-- `find?` on a meta list all of whose matching entries equal `m`
finds `m`, provided a matching entry exists. -/
theorem find?_meta_eq (k : Nat) (m : SavedNodeMeta) :
    ∀ l : List SavedNodeMeta, (∃ e ∈ l, e.id = k) → (∀ e ∈ l, e.id = k → e = m) →
    l.find? (fun e => e.id == k) = some m := by
  intro l
  induction l with
  | nil =>
    rintro ⟨e, he, _⟩
    cases he
  | cons a rest ih =>
    intro hex hall
    by_cases ha : a.id = k
    · rw [List.find?_cons_of_pos _ (by simp [ha])]
      rw [hall a (by simp) ha]
    · rw [List.find?_cons_of_neg _ (by simp [ha])]
      apply ih
      · obtain ⟨e, he, hk⟩ := hex
        rcases List.mem_cons.mp he with rfl | he
        · exact absurd hk ha
        · exact ⟨e, he, hk⟩
      · intro e he hk
        exact hall e (List.mem_cons.mpr (Or.inr he)) hk

/-- Under distinct node ids, the snapshot map resolves a node's id to
exactly that node's snapshot entry. -/
theorem metaGet_buildFlowPayload (g : Graph) (gn : LNode)
    (hnodup : (g.nodes.map (fun n => n.id)).Nodup) (hmem : gn ∈ g.nodes) :
    metaGet (buildFlowPayload g).nodes gn.id =
      some { id := gn.id, type := gn.kind, title := gn.title, position := gn.position,
             resourceType := if gn.kind == NodeKind.resource then some gn.resourceType else none,
             details := if gn.kind == NodeKind.process then some gn.details else none } := by
  unfold metaGet buildFlowPayload
  simp only
  apply find?_meta_eq
  · refine ⟨_, List.mem_reverse.mpr (List.mem_map.mpr ⟨gn, hmem, rfl⟩), rfl⟩
  · intro e he hek
    have he2 := List.mem_reverse.mp he
    rw [List.mem_map] at he2
    obtain ⟨gn2, hgn2, rfl⟩ := he2
    have : gn2 = gn :=
      List.inj_on_of_nodup_map hnodup hgn2 hmem (by simpa using hek)
    rw [this]

/-- C6: saving node positions with `buildFlowPayload` and reloading
with `applyFlowPayload`, where the external `graph.load` reconstructs
nodes with the same ids (in any positions), restores exactly the
original position of every node; and a pure load never triggers the
layout pass, because the change watcher is a no-op while the suppress
flag — raised for the whole load — is set. -/
theorem flow_c6_roundtrip (env : Env) (g loaded : Graph)
    (hids : loaded.nodes.map (fun n => n.id) = g.nodes.map (fun n => n.id))
    (hnodup : (g.nodes.map (fun n => n.id)).Nodup) :
    (applyFlowPayloadRestore loaded (buildFlowPayload g)).nodes.map
        (fun n => (n.id, n.position)) =
      g.nodes.map (fun n => (n.id, n.position)) ∧
    (∀ s : AppState, s.suppress = true → watcherTick env s = s) ∧
    (applyFlowPayloadApp loaded (buildFlowPayload g)).suppress = true ∧
    watcherTick env (applyFlowPayloadApp loaded (buildFlowPayload g)) =
      applyFlowPayloadApp loaded (buildFlowPayload g) := by
  have hsup : ∀ s : AppState, s.suppress = true → watcherTick env s = s := by
    intro s hs
    unfold watcherTick
    rw [if_pos hs]
  refine ⟨?_, hsup, rfl, hsup _ rfl⟩
  unfold applyFlowPayloadRestore
  simp only [List.map_map]
  have key : ∀ (lns gns : List LNode),
      lns.map (fun n => n.id) = gns.map (fun n => n.id) →
      (∀ x ∈ gns, x ∈ g.nodes) →
      lns.map ((fun n => (n.id, n.position)) ∘ (fun n =>
        match metaGet (buildFlowPayload g).nodes n.id with
        | none => n
        | some meta => restoreOne n meta)) = gns.map (fun n => (n.id, n.position)) := by
    intro lns
    induction lns with
    | nil =>
      intro gns hids2 _
      cases gns with
      | nil => rfl
      | cons gh gt => simp at hids2
    | cons ln lt ih =>
      intro gns hids2 hsub
      cases gns with
      | nil => simp at hids2
      | cons gn gt =>
        simp only [List.map_cons, List.cons.injEq] at hids2
        obtain ⟨hid, hids3⟩ := hids2
        simp only [List.map_cons, List.cons.injEq]
        constructor
        · have hget := metaGet_buildFlowPayload g gn hnodup (hsub gn (by simp))
          simp only [Function.comp_apply, hid, hget]
          have hpair := restoreOne_id_position ln
            { id := gn.id, type := gn.kind, title := gn.title, position := gn.position,
              resourceType := if gn.kind == NodeKind.resource then some gn.resourceType else none,
              details := if gn.kind == NodeKind.process then some gn.details else none }
          rw [hpair.1, hpair.2, hid]
        · exact ih gt hids3 (fun x hx => hsub x (by simp [hx]))
  exact key loaded.nodes g.nodes hids (fun x hx => hx)

/-- Witness for C6: a concrete reload of the drift diagram from
arbitrary reconstructed positions restores every node's position. -/
theorem flow_c6_roundtrip_witness :
    (applyFlowPayloadRestore
        ⟨[{ exMain with position := ⟨7, 8⟩ }, { exSecondary with position := ⟨9, 1⟩ },
          { exInputToSecondary with position := ⟨3, 4⟩ }], [⟨20, 10⟩], 1, ⟨0, 0⟩⟩
        (buildFlowPayload gDrift)).nodes.map (fun n => (n.id, n.position)) =
      gDrift.nodes.map (fun n => (n.id, n.position)) :=
  (flow_c6_roundtrip envLandscape gDrift
    ⟨[{ exMain with position := ⟨7, 8⟩ }, { exSecondary with position := ⟨9, 1⟩ },
      { exInputToSecondary with position := ⟨3, 4⟩ }], [⟨20, 10⟩], 1, ⟨0, 0⟩⟩
    rfl (by decide)).1

/-- Indexing a zip. -/
theorem zip_getElem? {α β : Type} :
    ∀ (l : List α) (m : List β) (i : Nat),
    (l.zip m)[i]? = (l[i]?).bind (fun a => (m[i]?).map (fun b => (a, b))) := by
  intro l
  induction l with
  | nil => intro m i; cases m <;> cases i <;> simp
  | cons a l2 ih =>
    intro m i
    cases m with
    | nil => cases i <;> simp
    | cons b m2 =>
      cases i with
      | zero => simp
      | succ j => simpa using ih m2 j

/-- Consecutive stack offsets differ by the item's extent plus the
gap. -/
theorem stackOffsets_consecutive :
    ∀ (es : List ℚ) (start gap : ℚ) (i : Nat) (e y1 y2 : ℚ),
    es[i]? = some e → (stackOffsets start gap es)[i]? = some y1 →
    (stackOffsets start gap es)[i + 1]? = some y2 → y2 = y1 + e + gap := by
  intro es
  induction es with
  | nil =>
    intro start gap i e y1 y2 he
    simp at he
  | cons e0 rest ih =>
    intro start gap i e y1 y2 he h1 h2
    cases i with
    | zero =>
      simp only [stackOffsets, List.getElem?_cons_zero, Option.some.injEq] at he h1
      simp only [stackOffsets, List.getElem?_cons_succ] at h2
      cases rest with
      | nil => simp [stackOffsets] at h2
      | cons e1 r2 =>
        simp only [stackOffsets, List.getElem?_cons_zero, Option.some.injEq] at h2
        rw [← h2, ← h1, ← he]
    | succ j =>
      simp only [stackOffsets, List.getElem?_cons_succ] at h1 h2
      simp only [List.getElem?_cons_succ] at he
      exact ih _ _ j e y1 y2 he h1 h2

/-- Spacing of items placed by zipping with stack offsets. -/
theorem zip_offsets_spacing {α : Type} (items : List α) (start gap : ℚ) (es : List ℚ)
    (i : Nat) (a1 a2 : α) (y1 y2 e : ℚ)
    (h1 : (items.zip (stackOffsets start gap es))[i]? = some (a1, y1))
    (h2 : (items.zip (stackOffsets start gap es))[i + 1]? = some (a2, y2))
    (he : es[i]? = some e) :
    y2 = y1 + e + gap := by
  rw [zip_getElem?] at h1 h2
  cases hi1 : items[i]? with
  | none => rw [hi1] at h1; simp at h1
  | some b1 =>
    rw [hi1] at h1
    cases hy1 : (stackOffsets start gap es)[i]? with
    | none => rw [hy1] at h1; simp at h1
    | some z1 =>
      rw [hy1] at h1
      simp at h1
      cases hi2 : items[i + 1]? with
      | none => rw [hi2] at h2; simp at h2
      | some b2 =>
        rw [hi2] at h2
        cases hy2 : (stackOffsets start gap es)[i + 1]? with
        | none => rw [hy2] at h2; simp at h2
        | some z2 =>
          rw [hy2] at h2
          simp at h2
          rw [← h1.2, ← h2.2]
          exact stackOffsets_consecutive es start gap i e z1 z2 he hy1 hy2

/-- C5 counterexample: in portrait mode the two mechanism resources of
`gMechPortrait` are stacked 20 px apart (column gap), not 90 px — the
90 px constant is not an inter-item spacing. -/
theorem flow_c5_portrait_mech_gap_cex :
    (posOf (autoArrangeNodes envPortrait gMechPortrait) 2).y -
      ((posOf (autoArrangeNodes envPortrait gMechPortrait) 1).y + 120) = 20 ∧
    (20 : ℚ) ≠ 90 := by
  constructor
  · simp +decide [autoArrangeNodes, autoArrangeCore, autoArrangeLandscape, autoArrangePortrait, inputGroupsFold, outputGroupsFold,
      posOf, statG, basePosOf, envPortrait, gMechPortrait, exMain,
      centerXOf, centerYOf, mainProcessOf, instBEqOfDecidableEq,
      processNodesOf, resourceNodesOf, inputResourcesOf, outputResourcesOf, mechanismResourcesOf,
      getNodeSize, setPos, readPos, pushWrites, applyWrites, placeRowFromMetrics, placeRowWrites,
      getRowMetrics, placeColumnRight, placeColumnWrites,
      stackOffsets, stackBottom, optMax, groupOwners, groupFor, firstDedup,
      firstDedupGo, inputOwnerId, outputOwnerId, interfaceEntries, mapGet, List.find?, List.filter,
      List.filterMap, List.foldl]
  · norm_num

/-- Splitting a zip-index equation into its components. -/
theorem bind_pair_some {a b : Type} (oa : Option a) (ob : Option b) (p : a × b)
    (h : oa.bind (fun x => ob.map (fun y => (x, y))) = some p) :
    oa = some p.1 ∧ ob = some p.2 := by
  cases oa with
  | none => simp at h
  | some x =>
    cases ob with
    | none => simp at h
    | some y =>
      simp at h
      rw [← h]
      exact ⟨rfl, rfl⟩

/-- C5 (amended): in every stack placed by the layout pass,
consecutive items are separated by exactly the context's gap constant
— 30 px in the landscape input/output columns, 20 px in the portrait
rows, 20 px in the portrait mechanism column (not 90 px; 90 px is the
clearance between the widest portrait row extent and the mechanism
column), 40 px in the landscape mechanism row — and consecutive
bounding boxes do not intersect (the trailing edge lies strictly
before the next leading edge). -/
theorem flow_c5_stack_spacing :
    (∀ (env : Env) (sg : SGraph) (b : Nat → Point) (ws : Writes) (pid : Nat)
       (items : List NodeData) (i : Nat) (w1 w2 : Nat × Point) (s : Size),
       (placeLeftWrites env sg b ws pid items)[i]? = some w1 →
       (placeLeftWrites env sg b ws pid items)[i + 1]? = some w2 →
       (items.map (fun n => getNodeSize env sg n.id ⟨200, 120⟩))[i]? = some s →
       w2.2.y = w1.2.y + s.height + 30 ∧ w1.2.y + s.height < w2.2.y) ∧
    (∀ (env : Env) (sg : SGraph) (b : Nat → Point) (ws : Writes) (pid : Nat)
       (items : List NodeData) (i : Nat) (w1 w2 : Nat × Point) (s : Size),
       (placeRightWrites env sg b ws pid items)[i]? = some w1 →
       (placeRightWrites env sg b ws pid items)[i + 1]? = some w2 →
       (items.map (fun n => getNodeSize env sg n.id ⟨200, 120⟩))[i]? = some s →
       w2.2.y = w1.2.y + s.height + 30 ∧ w1.2.y + s.height < w2.2.y) ∧
    (∀ (items : List NodeData) (metrics : RowMetrics) (centerXPos y : ℚ)
       (i : Nat) (w1 w2 : Nat × Point) (s : Size),
       (placeRowWrites items metrics centerXPos y)[i]? = some w1 →
       (placeRowWrites items metrics centerXPos y)[i + 1]? = some w2 →
       metrics.sizes[i]? = some s →
       w2.2.x = w1.2.x + s.width + 20 ∧ w1.2.x + s.width < w2.2.x) ∧
    (∀ (env : Env) (sg : SGraph) (items : List NodeData) (x centerYPos : ℚ)
       (i : Nat) (w1 w2 : Nat × Point) (s : Size),
       (placeColumnWrites env sg items x centerYPos)[i]? = some w1 →
       (placeColumnWrites env sg items x centerYPos)[i + 1]? = some w2 →
       (items.map (fun n => getNodeSize env sg n.id ⟨200, 120⟩))[i]? = some s →
       w2.2.y = w1.2.y + s.height + 20 ∧ w1.2.y + s.height < w2.2.y) ∧
    (∀ (env : Env) (sg : SGraph) (mechanisms : List NodeData) (centerX bottomRowY : ℚ)
       (i : Nat) (w1 w2 : Nat × Point) (s : Size),
       (mechRowWrites env sg mechanisms centerX bottomRowY)[i]? = some w1 →
       (mechRowWrites env sg mechanisms centerX bottomRowY)[i + 1]? = some w2 →
       (mechanisms.map (fun n => getNodeSize env sg n.id ⟨200, 120⟩))[i]? = some s →
       w2.2.x = w1.2.x + s.width + 40 ∧ w1.2.x + s.width < w2.2.x) := by
  have extract : ∀ {a : Type} (l : List a) (f : a → Nat × Point) (i : Nat)
      (w : Nat × Point), ((l.map f)[i]? = some w) →
      ∃ p, l[i]? = some p ∧ f p = w := by
    intro a l f i w h
    rw [List.getElem?_map] at h
    cases hp : l[i]? with
    | none => rw [hp] at h; simp at h
    | some p =>
      rw [hp] at h
      simp at h
      exact ⟨p, rfl, h⟩
  refine ⟨?_, ?_, ?_, ?_, ?_⟩
  · intro env sg b ws pid items i w1 w2 s h1 h2 hs
    simp only [placeLeftWrites] at h1 h2
    obtain ⟨p1, hp1, hf1⟩ := extract _ _ _ _ h1
    obtain ⟨p2, hp2, hf2⟩ := extract _ _ _ _ h2
    rw [zip_getElem?] at hp1 hp2
    obtain ⟨hi1, hq1⟩ := bind_pair_some _ _ _ hp1
    obtain ⟨hi2, hq2⟩ := bind_pair_some _ _ _ hp2
    have hy := zip_offsets_spacing _ _ 30 _ i p1.2.1 p2.2.1 p1.2.2 p2.2.2 s.height hq1 hq2
      (by rw [List.getElem?_map, hs]; rfl)
    have hw1 : w1.2.y = p1.2.2 := by rw [← hf1]
    have hw2 : w2.2.y = p2.2.2 := by rw [← hf2]
    constructor
    · rw [hw1, hw2]; exact hy
    · rw [hw1, hw2, hy]; linarith
  · intro env sg b ws pid items i w1 w2 s h1 h2 hs
    simp only [placeRightWrites] at h1 h2
    obtain ⟨p1, hp1, hf1⟩ := extract _ _ _ _ h1
    obtain ⟨p2, hp2, hf2⟩ := extract _ _ _ _ h2
    have hy := zip_offsets_spacing _ _ 30 _ i p1.1 p2.1 p1.2 p2.2 s.height hp1 hp2
      (by rw [List.getElem?_map, hs]; rfl)
    have hw1 : w1.2.y = p1.2 := by rw [← hf1]
    have hw2 : w2.2.y = p2.2 := by rw [← hf2]
    constructor
    · rw [hw1, hw2]; exact hy
    · rw [hw1, hw2, hy]; linarith
  · intro items metrics centerXPos y i w1 w2 s h1 h2 hs
    simp only [placeRowWrites] at h1 h2
    obtain ⟨p1, hp1, hf1⟩ := extract _ _ _ _ h1
    obtain ⟨p2, hp2, hf2⟩ := extract _ _ _ _ h2
    have hx := zip_offsets_spacing _ _ 20 _ i p1.1 p2.1 p1.2 p2.2 s.width hp1 hp2
      (by rw [List.getElem?_map, hs]; rfl)
    have hw1 : w1.2.x = p1.2 := by rw [← hf1]
    have hw2 : w2.2.x = p2.2 := by rw [← hf2]
    constructor
    · rw [hw1, hw2]; exact hx
    · rw [hw1, hw2, hx]; linarith
  · intro env sg items x centerYPos i w1 w2 s h1 h2 hs
    simp only [placeColumnWrites] at h1 h2
    obtain ⟨p1, hp1, hf1⟩ := extract _ _ _ _ h1
    obtain ⟨p2, hp2, hf2⟩ := extract _ _ _ _ h2
    have hy := zip_offsets_spacing _ _ 20 _ i p1.1 p2.1 p1.2 p2.2 s.height hp1 hp2
      (by rw [List.getElem?_map, hs]; rfl)
    have hw1 : w1.2.y = p1.2 := by rw [← hf1]
    have hw2 : w2.2.y = p2.2 := by rw [← hf2]
    constructor
    · rw [hw1, hw2]; exact hy
    · rw [hw1, hw2, hy]; linarith
  · intro env sg mechanisms centerX bottomRowY i w1 w2 s h1 h2 hs
    simp only [mechRowWrites] at h1 h2
    obtain ⟨p1, hp1, hf1⟩ := extract _ _ _ _ h1
    obtain ⟨p2, hp2, hf2⟩ := extract _ _ _ _ h2
    have hx := zip_offsets_spacing _ _ 40 _ i p1.1 p2.1 p1.2 p2.2 s.width hp1 hp2
      (by rw [List.getElem?_map, hs]; rfl)
    have hw1 : w1.2.x = p1.2 := by rw [← hf1]
    have hw2 : w2.2.x = p2.2 := by rw [← hf2]
    constructor
    · rw [hw1, hw2]; exact hx
    · rw [hw1, hw2, hx]; linarith

/-- Witness for C5: the landscape mechanism row of the two unmeasured
mechanisms of `gMechPortrait` at row center 800: the second item sits
exactly 200 + 40 px right of the first, with no overlap. -/
theorem flow_c5_stack_spacing_witness :
    ((2 : Nat), (⟨820, 100⟩ : Point)).2.x =
      ((1 : Nat), (⟨580, 100⟩ : Point)).2.x + (⟨200, 120⟩ : Size).width + 40 ∧
    ((1 : Nat), (⟨580, 100⟩ : Point)).2.x + (⟨200, 120⟩ : Size).width <
      ((2 : Nat), (⟨820, 100⟩ : Point)).2.x := by
  refine flow_c5_stack_spacing.2.2.2.2 envLandscape (statG gMechPortrait)
    (mechanismResourcesOf (statG gMechPortrait)) 800 100 0 (1, ⟨580, 100⟩) (2, ⟨820, 100⟩)
    ⟨200, 120⟩ ?_ ?_ ?_
  · simp +decide [mechRowWrites, mechanismResourcesOf, resourceNodesOf, statG, gMechPortrait,
      exMain, getNodeSize, envLandscape, stackOffsets, instBEqOfDecidableEq, List.filter,
      List.zip, List.zipWith]
    norm_num
  · simp +decide [mechRowWrites, mechanismResourcesOf, resourceNodesOf, statG, gMechPortrait,
      exMain, getNodeSize, envLandscape, stackOffsets, instBEqOfDecidableEq, List.filter,
      List.zip, List.zipWith]
    norm_num
  · simp +decide [mechanismResourcesOf, resourceNodesOf, statG, gMechPortrait,
      exMain, getNodeSize, envLandscape, instBEqOfDecidableEq, List.filter]

/-- With a single process node `P`, the main-process selection yields
`P` whether or not it is titled "Process". -/
theorem mainProcessOf_single (sg : SGraph) (P : NodeData) (hP : processNodesOf sg = [P]) :
    mainProcessOf sg = some P := by
  unfold mainProcessOf
  rw [hP]
  cases h : List.find? (fun n => n.title == "Process") [P] with
  | none => rfl
  | some q =>
    have hq : q ∈ [P] := List.mem_of_find?_eq_some h
    simp at hq
    rw [hq]
    rfl

/-- A node resolved by the interface map is a node of the graph. -/
theorem mapGet_mem (nodes : List NodeData) (k : Nat) (o : NodeData)
    (h : mapGet (interfaceEntries nodes) k = some o) : o ∈ nodes := by
  unfold mapGet at h
  cases hf : (interfaceEntries nodes).reverse.find? (fun e => e.1 == k) with
  | none => rw [hf] at h; simp at h
  | some e =>
    rw [hf] at h
    simp at h
    have hmem := List.mem_of_find?_eq_some hf
    rw [List.mem_reverse] at hmem
    obtain ⟨n, hn, he2, _⟩ := (mem_interfaceEntries nodes e).mp hmem
    rw [← h, he2]
    exact hn

/-- With a single process node, any graph node of process kind is that
node. -/
theorem node_kind_process_eq (sg : SGraph) (P : NodeData) (hP : processNodesOf sg = [P])
    (o : NodeData) (ho : o ∈ sg.nodes) (hk : o.kind = NodeKind.process) : o = P := by
  have hmem : o ∈ processNodesOf sg := by
    unfold processNodesOf
    exact List.mem_filter.mpr ⟨ho, by simp [hk]⟩
  rw [hP] at hmem
  simpa using hmem

/-- With a single process node, every input resource's owner resolves
to it. -/
theorem inputOwnerId_single (sg : SGraph) (P : NodeData) (hP : processNodesOf sg = [P])
    (r : NodeData) : inputOwnerId sg (mainProcessOf sg) r = some P.id := by
  rw [mainProcessOf_single sg P hP]
  unfold inputOwnerId
  cases hhead : r.outputs.head? with
  | none => simp
  | some p =>
    rcases hfind : sg.connections.find? (fun c => c.fromPort == p) with _ | c
    · simp [hfind]
    · rcases hm : mapGet (interfaceEntries sg.nodes) c.toPort with _ | o
      · simp [hfind, hm]
      · by_cases hk : o.kind = NodeKind.process
        · have ho : o = P := node_kind_process_eq sg P hP o (mapGet_mem _ _ _ hm) hk
          subst ho
          simp [hfind, hm, hk]
        · simp [hfind, hm, hk]

/-- With a single process node, every output resource's owner resolves
to it. -/
theorem outputOwnerId_single (sg : SGraph) (P : NodeData) (hP : processNodesOf sg = [P])
    (r : NodeData) : outputOwnerId sg (mainProcessOf sg) r = some P.id := by
  rw [mainProcessOf_single sg P hP]
  unfold outputOwnerId
  cases hhead : r.inputs.head? with
  | none => simp
  | some p =>
    rcases hfind : sg.connections.find? (fun c => c.toPort == p) with _ | c
    · simp [hfind]
    · rcases hm : mapGet (interfaceEntries sg.nodes) c.fromPort with _ | o
      · simp [hfind, hm]
      · by_cases hk : o.kind = NodeKind.process
        · have ho : o = P := node_kind_process_eq sg P hP o (mapGet_mem _ _ _ hm) hk
          subst ho
          simp [hfind, hm, hk]
        · simp [hfind, hm, hk]

/-- `filterMap` of a constant-`some` function is a replicate. -/
theorem filterMap_const_some {α : Type} (c : Nat) :
    ∀ (l : List α) (f : α → Option Nat), (∀ x ∈ l, f x = some c) →
    l.filterMap f = List.replicate l.length c := by
  intro l
  induction l with
  | nil => intro f _; rfl
  | cons a rest ih =>
    intro f h
    rw [List.filterMap_cons, h a (by simp), List.length_cons, List.replicate_succ]
    rw [ih f (fun x hx => h x (by simp [hx]))]

theorem firstDedupGo_mem (c : Nat) :
    ∀ (n : Nat) (seen : List Nat), c ∈ seen → firstDedupGo seen (List.replicate n c) = [] := by
  intro n
  induction n with
  | zero => intro seen _; rfl
  | succ m ih =>
    intro seen hc
    rw [List.replicate_succ]
    unfold firstDedupGo
    rw [if_pos hc]
    exact ih seen hc

theorem firstDedup_replicate (c : Nat) (n : Nat) (h : n ≠ 0) :
    firstDedup (List.replicate n c) = [c] := by
  cases n with
  | zero => exact absurd rfl h
  | succ m =>
    unfold firstDedup
    rw [List.replicate_succ]
    unfold firstDedupGo
    rw [if_neg (by simp)]
    rw [firstDedupGo_mem c m [c] (by simp)]

/-- With all owners equal, the owner key list is the single owner (or
empty). -/
theorem groupOwners_const (owner : NodeData → Option Nat) (items : List NodeData) (c : Nat)
    (h : ∀ r ∈ items, owner r = some c) :
    groupOwners owner items = if items.isEmpty then [] else [c] := by
  unfold groupOwners
  rw [filterMap_const_some c items owner h]
  cases items with
  | nil => rfl
  | cons a rest =>
    simp only [List.isEmpty_cons, if_neg]
    exact firstDedup_replicate c (rest.length + 1) (by omega)

/-- With all owners equal, the owner's group is the whole item list. -/
theorem groupFor_const (owner : NodeData → Option Nat) (items : List NodeData) (c : Nat)
    (h : ∀ r ∈ items, owner r = some c) :
    groupFor owner items c = items := by
  unfold groupFor
  apply List.filter_eq_self.mpr
  intro x hx
  simp [h x hx]

/-- Reading a position covered by a write is independent of the
pre-pass positions. -/
theorem readPos_covered (b1 b2 : Nat → Point) (ws : Writes) (nid : Nat)
    (h : (ws.find? (fun e => e.1 == nid)).isSome) :
    readPos b1 ws nid = readPos b2 ws nid := by
  unfold readPos
  cases hf : ws.find? (fun e => e.1 == nid) with
  | none => rw [hf] at h; simp at h
  | some q => rfl

/-- The most recent write to a node is what a read returns. -/
theorem readPos_cons_self (b : Nat → Point) (ws : Writes) (nid : Nat) (p : Point) :
    readPos b ((nid, p) :: ws) nid = p := by
  simp [readPos, List.find?]

theorem find?_isSome_cons (ws : Writes) (a : Nat × Point) (nid : Nat)
    (h : (ws.find? (fun e => e.1 == nid)).isSome) :
    ((a :: ws).find? (fun e => e.1 == nid)).isSome := by
  rw [List.find?_cons]
  cases hpa : (a.1 == nid) with
  | true => simp
  | false => exact h

theorem find?_isSome_pushWrites (l : List (Nat × Point)) :
    ∀ (ws : Writes) (nid : Nat), (ws.find? (fun e => e.1 == nid)).isSome →
    ((pushWrites ws l).find? (fun e => e.1 == nid)).isSome := by
  induction l with
  | nil => intro ws nid h; exact h
  | cons a rest ih =>
    intro ws nid h
    exact ih (a :: ws) nid (find?_isSome_cons ws a nid h)

/-- `placeLeftOfProcess` depends on the pre-pass positions only
through the owner's position; once the owner has been written, the
result is independent of them. -/
theorem placeLeftOfProcess_covered (env : Env) (sg : SGraph) (b1 b2 : Nat → Point)
    (ws : Writes) (pid : Nat) (items : List NodeData) (pt : ℚ)
    (h : (ws.find? (fun e => e.1 == pid)).isSome) :
    placeLeftOfProcess env sg b1 ws pid items pt = placeLeftOfProcess env sg b2 ws pid items pt := by
  unfold placeLeftOfProcess placeLeftWrites placeLeftBottom
  rw [readPos_covered b1 b2 ws pid h]

theorem placeRightOfProcess_covered (env : Env) (sg : SGraph) (b1 b2 : Nat → Point)
    (ws : Writes) (pid : Nat) (items : List NodeData) (pr pt : ℚ)
    (h : (ws.find? (fun e => e.1 == pid)).isSome) :
    placeRightOfProcess env sg b1 ws pid items pr pt =
      placeRightOfProcess env sg b2 ws pid items pr pt := by
  unfold placeRightOfProcess placeRightWrites placeRightMaxRight placeRightBottom
  rw [readPos_covered b1 b2 ws pid h]

/-- With all input owners equal to `P`, the input-group loop is a
single `placeLeftOfProcess` call on the full input list (or nothing),
and is independent of the pre-pass positions once `P` is written. -/
theorem inputGroupsFold_single (env : Env) (sg : SGraph) (b1 b2 : Nat → Point)
    (mainProcess : Option NodeData) (inputs : List NodeData) (processTop : ℚ)
    (ws : Writes) (P : NodeData)
    (hall : ∀ r ∈ inputs, inputOwnerId sg mainProcess r = some P.id)
    (hcov : (ws.find? (fun e => e.1 == P.id)).isSome) :
    inputGroupsFold env sg b1 mainProcess inputs processTop ws =
      (if inputs.isEmpty then (ws, (none : Option ℚ))
       else ((placeLeftOfProcess env sg b2 ws P.id inputs processTop).1,
             some (placeLeftOfProcess env sg b2 ws P.id inputs processTop).2)) := by
  unfold inputGroupsFold
  rw [groupOwners_const _ _ P.id hall]
  cases hin : inputs.isEmpty with
  | true => rfl
  | false =>
    simp only [if_neg, Bool.false_eq_true, not_false_eq_true, List.foldl_cons, List.foldl_nil]
    rw [groupFor_const _ _ P.id hall]
    rw [placeLeftOfProcess_covered env sg b1 b2 ws P.id inputs processTop hcov]
    rfl

theorem outputGroupsFold_single (env : Env) (sg : SGraph) (b1 b2 : Nat → Point)
    (mainProcess : Option NodeData) (outputs : List NodeData) (pr pt : ℚ)
    (ws : Writes) (P : NodeData)
    (hall : ∀ r ∈ outputs, outputOwnerId sg mainProcess r = some P.id)
    (hcov : (ws.find? (fun e => e.1 == P.id)).isSome) :
    outputGroupsFold env sg b1 mainProcess outputs pr pt ws =
      (if outputs.isEmpty then (ws, pr, (none : Option ℚ))
       else ((placeRightOfProcess env sg b2 ws P.id outputs pr pt).1,
             max pr (placeRightOfProcess env sg b2 ws P.id outputs pr pt).2.1,
             some (placeRightOfProcess env sg b2 ws P.id outputs pr pt).2.2)) := by
  unfold outputGroupsFold
  rw [groupOwners_const _ _ P.id hall]
  cases hout : outputs.isEmpty with
  | true => rfl
  | false =>
    simp only [if_neg, Bool.false_eq_true, not_false_eq_true, List.foldl_cons, List.foldl_nil]
    rw [groupFor_const _ _ P.id hall]
    rw [placeRightOfProcess_covered env sg b1 b2 ws P.id outputs pr pt hcov]
    rfl

/-- `pushWrites` is reverse-append: the last element of the batch ends
up most recent (at the head). -/
theorem pushWrites_eq : ∀ (l : List (Nat × Point)) (ws : Writes),
    pushWrites ws l = l.reverse ++ ws := by
  intro l
  induction l with
  | nil => intro ws; rfl
  | cons a rest ih =>
    intro ws
    have h1 : pushWrites ws (a :: rest) = pushWrites (a :: ws) rest := rfl
    rw [h1, ih (a :: ws)]
    simp

/-- `find?` over an append searches the first list first. -/
theorem find?_append_or {α : Type} (p : α → Bool) :
    ∀ (l1 l2 : List α), (l1 ++ l2).find? p =
      match l1.find? p with
      | some e => some e
      | none => l2.find? p := by
  intro l1 l2
  induction l1 with
  | nil => rfl
  | cons a rest ih =>
    cases hp : p a with
    | true =>
      rw [List.cons_append, List.find?_cons_of_pos _ hp, List.find?_cons_of_pos _ hp]
    | false =>
      rw [List.cons_append, List.find?_cons_of_neg _ (by simp [hp]), ih,
          List.find?_cons_of_neg _ (by simp [hp])]

/-- In a list whose keys are distinct, filtering for a member's key
yields exactly that member. -/
theorem filter_key_singleton {α : Type} (key : α → Nat) :
    ∀ (l : List α) (a : α), a ∈ l → (l.map key).Nodup →
      l.filter (fun e => key e == key a) = [a] := by
  intro l
  induction l with
  | nil => intro a ha _; simp at ha
  | cons b rest ih =>
    intro a ha hnodup
    rw [List.map_cons, List.nodup_cons] at hnodup
    rcases List.mem_cons.mp ha with rfl | hmem
    · rw [List.filter_cons_of_pos (by simp)]
      have hnil : rest.filter (fun e => key e == key a) = [] := by
        rw [List.filter_eq_nil_iff]
        intro e he
        simp only [beq_iff_eq]
        intro hkey
        exact hnodup.1 (hkey ▸ List.mem_map_of_mem key he)
      rw [hnil]
    · have hka : key b ≠ key a := by
        intro h
        exact hnodup.1 (h ▸ List.mem_map_of_mem key hmem)
      rw [List.filter_cons_of_neg (by simp [hka])]
      exact ih a hmem hnodup.2

/-- Reading a key written exactly once in the batch returns that
write, regardless of the older log. -/
theorem readPos_pushWrites_mem (b : Nat → Point) (ws : Writes) (l : List (Nat × Point))
    (k : Nat) (v : Point) (hmem : (k, v) ∈ l) (hnodup : (l.map (fun e => e.1)).Nodup) :
    readPos b (pushWrites ws l) k = v := by
  have hfil : l.filter (fun e => e.1 == k) = [(k, v)] :=
    filter_key_singleton (fun e => e.1) l (k, v) hmem hnodup
  have hrev : l.reverse.filter (fun e => e.1 == k) = [(k, v)] := by
    rw [List.filter_reverse, hfil]
    rfl
  unfold readPos
  rw [pushWrites_eq, find?_append_or,
      find?_of_filter_singleton (fun e => e.1 == k) (k, v) l.reverse hrev]

/-- Reading a key not touched by the batch sees through it. -/
theorem readPos_pushWrites_notmem (b : Nat → Point) (ws : Writes) (l : List (Nat × Point))
    (k : Nat) (hk : ∀ e ∈ l, e.1 ≠ k) :
    readPos b (pushWrites ws l) k = readPos b ws k := by
  unfold readPos
  rw [pushWrites_eq, find?_append_or]
  have hnone : l.reverse.find? (fun e => e.1 == k) = none := by
    rw [List.find?_eq_none]
    intro e he
    simp [hk e (List.mem_reverse.mp he)]
  rw [hnone]

/-- Under distinct node ids, looking a node up by its own id finds
it. -/
theorem find?_node_of_nodup (nodes : List LNode) (n : LNode) (hmem : n ∈ nodes)
    (hnodup : (nodes.map (fun m => m.id)).Nodup) :
    nodes.find? (fun m => m.id == n.id) = some n :=
  find?_of_filter_singleton _ _ _ (filter_key_singleton (fun m => m.id) nodes n hmem hnodup)

/-- `applyWrites` maps the per-node effect over the list. -/
theorem applyWrites_eq_map (ws : Writes) (nodes : List LNode) :
    applyWrites ws nodes = nodes.map (applyOne ws) := rfl

/-- The per-node effect never changes the node id. -/
theorem applyOne_id (ws : Writes) (n : LNode) : (applyOne ws n).id = n.id := by
  unfold applyOne
  cases ws.find? (fun e => e.1 == n.id) <;> rfl

/-- The per-node effect's position is the most recent write,
defaulting to the node's own position. -/
theorem applyOne_position (ws : Writes) (n : LNode) :
    (applyOne ws n).position = readPos (fun _ => n.position) ws n.id := by
  unfold applyOne readPos
  cases ws.find? (fun e => e.1 == n.id) <;> rfl

/-- Looking up a node id after applying writes finds the same node,
with the writes applied. -/
theorem find?_applyWrites (ws : Writes) (nodes : List LNode) (k : Nat) :
    (applyWrites ws nodes).find? (fun n => n.id == k) =
      (nodes.find? (fun n => n.id == k)).map (applyOne ws) := by
  rw [applyWrites_eq_map]
  induction nodes with
  | nil => rfl
  | cons m rest ih =>
    rw [List.map_cons]
    cases hm : (m.id == k) with
    | true =>
      have hl : List.find? (fun n => n.id == k) (applyOne ws m :: List.map (applyOne ws) rest)
          = some (applyOne ws m) :=
        List.find?_cons_of_pos _ (by rw [applyOne_id]; exact hm)
      have hr : List.find? (fun n => n.id == k) (m :: rest) = some m :=
        List.find?_cons_of_pos _ hm
      rw [hl, hr]
      rfl
    | false =>
      have hl : List.find? (fun n => n.id == k) (applyOne ws m :: List.map (applyOne ws) rest)
          = List.find? (fun n => n.id == k) (List.map (applyOne ws) rest) :=
        List.find?_cons_of_neg _ (by rw [applyOne_id]; simp [hm])
      have hr : List.find? (fun n => n.id == k) (m :: rest)
          = List.find? (fun n => n.id == k) rest :=
        List.find?_cons_of_neg _ (by simp [hm])
      rw [hl, hr, ih]

/-- The position of a node after a layout pass is the most recent
write to it, defaulting to its pre-pass position. -/
theorem posOf_autoArrange (env : Env) (g : Graph) (k : Nat) (n : LNode)
    (hne : g.nodes.isEmpty = false)
    (hfind : g.nodes.find? (fun m => m.id == k) = some n) :
    posOf (autoArrangeNodes env g) k =
      readPos (basePosOf g) (autoArrangeCore env (statG g) (basePosOf g)) k := by
  unfold autoArrangeNodes
  rw [if_neg (by simp [hne])]
  unfold posOf
  simp only
  rw [find?_applyWrites, hfind]
  have hid : n.id = k := by simpa using List.find?_some hfind
  cases hf : (autoArrangeCore env (statG g) (basePosOf g)).find? (fun e => e.1 == k) with
  | some e => simp [applyOne, readPos, hid, hf]
  | none => simp [applyOne, readPos, hid, hf, basePosOf, posOf, hfind]

/-- One batch of writes is idempotent under `applyWrites`. -/
theorem applyWrites_idem (ws : Writes) (nodes : List LNode) :
    applyWrites ws (applyWrites ws nodes) = applyWrites ws nodes := by
  unfold applyWrites
  rw [List.map_map]
  apply List.map_congr_left
  intro n _
  simp only [Function.comp]
  cases h : ws.find? (fun e => e.1 == n.id) with
  | none => simp [h]
  | some e => simp [h]

/-- A pass on a nonempty graph commits the orientation-appropriate
writes. -/
theorem autoArrangeNodes_eq_of_ne (env : Env) (h : Graph) (hne : h.nodes.isEmpty = false) :
    autoArrangeNodes env h =
      { h with nodes := applyWrites (autoArrangeCore env (statG h) (basePosOf h)) h.nodes } := by
  unfold autoArrangeNodes
  rw [if_neg (by simp [hne])]

/-- The group loop over an empty resource list is a no-op. -/
theorem inputGroupsFold_nil (env : Env) (sg : SGraph) (b : Nat → Point)
    (mp : Option NodeData) (inputs : List NodeData) (pt : ℚ) (ws : Writes)
    (hin : inputs.isEmpty = true) :
    inputGroupsFold env sg b mp inputs pt ws = (ws, none) := by
  have : inputs = [] := List.isEmpty_iff.mp hin
  subst this
  rfl

theorem outputGroupsFold_nil (env : Env) (sg : SGraph) (b : Nat → Point)
    (mp : Option NodeData) (outputs : List NodeData) (pr pt : ℚ) (ws : Writes)
    (hout : outputs.isEmpty = true) :
    outputGroupsFold env sg b mp outputs pr pt ws = (ws, pr, none) := by
  have : outputs = [] := List.isEmpty_iff.mp hout
  subst this
  rfl

/-- With a single owner and a nonempty group, the input-group loop is
exactly one stacked placement of the full list. -/
theorem inputGroupsFold_single_cons (env : Env) (sg : SGraph) (b1 b2 : Nat → Point)
    (mp : Option NodeData) (inputs : List NodeData) (pt : ℚ) (ws : Writes) (P : NodeData)
    (hall : ∀ r ∈ inputs, inputOwnerId sg mp r = some P.id)
    (hcov : (ws.find? (fun e => e.1 == P.id)).isSome)
    (hin : inputs.isEmpty = false) :
    inputGroupsFold env sg b1 mp inputs pt ws =
      (pushWrites ws (placeLeftWrites env sg b2 ws P.id inputs),
       some (placeLeftBottom env sg b2 ws P.id inputs)) := by
  rw [inputGroupsFold_single env sg b1 b2 mp inputs pt ws P hall hcov]
  rw [if_neg (by simp [hin])]
  unfold placeLeftOfProcess
  rw [if_neg (by simp [hin])]

theorem outputGroupsFold_single_cons (env : Env) (sg : SGraph) (b1 b2 : Nat → Point)
    (mp : Option NodeData) (outputs : List NodeData) (pr pt : ℚ) (ws : Writes) (P : NodeData)
    (hall : ∀ r ∈ outputs, outputOwnerId sg mp r = some P.id)
    (hcov : (ws.find? (fun e => e.1 == P.id)).isSome)
    (hout : outputs.isEmpty = false) :
    outputGroupsFold env sg b1 mp outputs pr pt ws =
      (pushWrites ws (placeRightWrites env sg b2 ws P.id outputs),
       max pr (placeRightMaxRight env sg b2 ws P.id outputs),
       some (placeRightBottom env sg b2 ws P.id outputs)) := by
  rw [outputGroupsFold_single env sg b1 b2 mp outputs pr pt ws P hall hcov]
  rw [if_neg (by simp [hout])]
  unfold placeRightOfProcess
  rw [if_neg (by simp [hout])]

theorem inputGroupsFold_fst_nil (env : Env) (sg : SGraph) (b : Nat → Point)
    (mp : Option NodeData) (inputs : List NodeData) (pt : ℚ) (ws : Writes)
    (hin : inputs.isEmpty = true) :
    (inputGroupsFold env sg b mp inputs pt ws).1 = ws := by
  rw [inputGroupsFold_nil env sg b mp inputs pt ws hin]

theorem inputGroupsFold_snd_nil (env : Env) (sg : SGraph) (b : Nat → Point)
    (mp : Option NodeData) (inputs : List NodeData) (pt : ℚ) (ws : Writes)
    (hin : inputs.isEmpty = true) :
    (inputGroupsFold env sg b mp inputs pt ws).2 = none := by
  rw [inputGroupsFold_nil env sg b mp inputs pt ws hin]

theorem inputGroupsFold_fst_cons (env : Env) (sg : SGraph) (b1 b2 : Nat → Point)
    (mp : Option NodeData) (inputs : List NodeData) (pt : ℚ) (ws : Writes) (P : NodeData)
    (hall : ∀ r ∈ inputs, inputOwnerId sg mp r = some P.id)
    (hcov : (ws.find? (fun e => e.1 == P.id)).isSome)
    (hin : inputs.isEmpty = false) :
    (inputGroupsFold env sg b1 mp inputs pt ws).1 =
      pushWrites ws (placeLeftWrites env sg b2 ws P.id inputs) := by
  rw [inputGroupsFold_single_cons env sg b1 b2 mp inputs pt ws P hall hcov hin]

theorem inputGroupsFold_snd_cons (env : Env) (sg : SGraph) (b1 b2 : Nat → Point)
    (mp : Option NodeData) (inputs : List NodeData) (pt : ℚ) (ws : Writes) (P : NodeData)
    (hall : ∀ r ∈ inputs, inputOwnerId sg mp r = some P.id)
    (hcov : (ws.find? (fun e => e.1 == P.id)).isSome)
    (hin : inputs.isEmpty = false) :
    (inputGroupsFold env sg b1 mp inputs pt ws).2 =
      some (placeLeftBottom env sg b2 ws P.id inputs) := by
  rw [inputGroupsFold_single_cons env sg b1 b2 mp inputs pt ws P hall hcov hin]

theorem outputGroupsFold_fst_nil (env : Env) (sg : SGraph) (b : Nat → Point)
    (mp : Option NodeData) (outputs : List NodeData) (pr pt : ℚ) (ws : Writes)
    (hout : outputs.isEmpty = true) :
    (outputGroupsFold env sg b mp outputs pr pt ws).1 = ws := by
  rw [outputGroupsFold_nil env sg b mp outputs pr pt ws hout]

theorem outputGroupsFold_right_nil (env : Env) (sg : SGraph) (b : Nat → Point)
    (mp : Option NodeData) (outputs : List NodeData) (pr pt : ℚ) (ws : Writes)
    (hout : outputs.isEmpty = true) :
    (outputGroupsFold env sg b mp outputs pr pt ws).2.1 = pr := by
  rw [outputGroupsFold_nil env sg b mp outputs pr pt ws hout]

theorem outputGroupsFold_bottom_nil (env : Env) (sg : SGraph) (b : Nat → Point)
    (mp : Option NodeData) (outputs : List NodeData) (pr pt : ℚ) (ws : Writes)
    (hout : outputs.isEmpty = true) :
    (outputGroupsFold env sg b mp outputs pr pt ws).2.2 = none := by
  rw [outputGroupsFold_nil env sg b mp outputs pr pt ws hout]

theorem outputGroupsFold_fst_cons (env : Env) (sg : SGraph) (b1 b2 : Nat → Point)
    (mp : Option NodeData) (outputs : List NodeData) (pr pt : ℚ) (ws : Writes) (P : NodeData)
    (hall : ∀ r ∈ outputs, outputOwnerId sg mp r = some P.id)
    (hcov : (ws.find? (fun e => e.1 == P.id)).isSome)
    (hout : outputs.isEmpty = false) :
    (outputGroupsFold env sg b1 mp outputs pr pt ws).1 =
      pushWrites ws (placeRightWrites env sg b2 ws P.id outputs) := by
  rw [outputGroupsFold_single_cons env sg b1 b2 mp outputs pr pt ws P hall hcov hout]

theorem outputGroupsFold_right_cons (env : Env) (sg : SGraph) (b1 b2 : Nat → Point)
    (mp : Option NodeData) (outputs : List NodeData) (pr pt : ℚ) (ws : Writes) (P : NodeData)
    (hall : ∀ r ∈ outputs, outputOwnerId sg mp r = some P.id)
    (hcov : (ws.find? (fun e => e.1 == P.id)).isSome)
    (hout : outputs.isEmpty = false) :
    (outputGroupsFold env sg b1 mp outputs pr pt ws).2.1 =
      max pr (placeRightMaxRight env sg b2 ws P.id outputs) := by
  rw [outputGroupsFold_single_cons env sg b1 b2 mp outputs pr pt ws P hall hcov hout]

theorem outputGroupsFold_bottom_cons (env : Env) (sg : SGraph) (b1 b2 : Nat → Point)
    (mp : Option NodeData) (outputs : List NodeData) (pr pt : ℚ) (ws : Writes) (P : NodeData)
    (hall : ∀ r ∈ outputs, outputOwnerId sg mp r = some P.id)
    (hcov : (ws.find? (fun e => e.1 == P.id)).isSome)
    (hout : outputs.isEmpty = false) :
    (outputGroupsFold env sg b1 mp outputs pr pt ws).2.2 =
      some (placeRightBottom env sg b2 ws P.id outputs) := by
  rw [outputGroupsFold_single_cons env sg b1 b2 mp outputs pr pt ws P hall hcov hout]

/-- With a single process node, the landscape branch reads no pre-pass
position: the pass is a function of the static graph alone. -/
theorem autoArrangeLandscape_base_indep (env : Env) (sg : SGraph) (b1 b2 : Nat → Point)
    (P : NodeData) (hP : processNodesOf sg = [P]) :
    autoArrangeLandscape env sg b1 = autoArrangeLandscape env sg b2 := by
  have hmain := mainProcessOf_single sg P hP
  have hallIn : ∀ r ∈ inputResourcesOf sg, inputOwnerId sg (some P) r = some P.id := by
    intro r _
    rw [← hmain]
    exact inputOwnerId_single sg P hP r
  have hallOut : ∀ r ∈ outputResourcesOf sg, outputOwnerId sg (some P) r = some P.id := by
    intro r _
    rw [← hmain]
    exact outputOwnerId_single sg P hP r
  simp only [autoArrangeLandscape, hmain, setPos]
  set ws1 : Writes := [(P.id,
    (⟨centerXOf env sg - (getNodeSize env sg P.id ⟨200, 180⟩).width / 2,
      centerYOf env sg - (getNodeSize env sg P.id ⟨200, 180⟩).height / 2 - 40⟩ : Point))] with hws1
  have hcov1 : (ws1.find? (fun e => e.1 == P.id)).isSome := by
    rw [hws1]
    simp
  cases hin : (inputResourcesOf sg).isEmpty with
  | true =>
    rw [inputGroupsFold_fst_nil env sg b1 (some P) _ _ _ hin,
        inputGroupsFold_fst_nil env sg b2 (some P) _ _ _ hin,
        inputGroupsFold_snd_nil env sg b1 (some P) _ _ _ hin,
        inputGroupsFold_snd_nil env sg b2 (some P) _ _ _ hin]
    cases hout : (outputResourcesOf sg).isEmpty with
    | true =>
      rw [outputGroupsFold_fst_nil env sg b1 (some P) _ _ _ _ hout,
          outputGroupsFold_fst_nil env sg b2 (some P) _ _ _ _ hout,
          outputGroupsFold_right_nil env sg b1 (some P) _ _ _ _ hout,
          outputGroupsFold_right_nil env sg b2 (some P) _ _ _ _ hout,
          outputGroupsFold_bottom_nil env sg b1 (some P) _ _ _ _ hout,
          outputGroupsFold_bottom_nil env sg b2 (some P) _ _ _ _ hout]
    | false =>
      rw [outputGroupsFold_fst_cons env sg b1 b2 (some P) _ _ _ _ P hallOut hcov1 hout,
          outputGroupsFold_fst_cons env sg b2 b2 (some P) _ _ _ _ P hallOut hcov1 hout,
          outputGroupsFold_right_cons env sg b1 b2 (some P) _ _ _ _ P hallOut hcov1 hout,
          outputGroupsFold_right_cons env sg b2 b2 (some P) _ _ _ _ P hallOut hcov1 hout,
          outputGroupsFold_bottom_cons env sg b1 b2 (some P) _ _ _ _ P hallOut hcov1 hout,
          outputGroupsFold_bottom_cons env sg b2 b2 (some P) _ _ _ _ P hallOut hcov1 hout]
  | false =>
    rw [inputGroupsFold_fst_cons env sg b1 b2 (some P) _ _ _ P hallIn hcov1 hin,
        inputGroupsFold_fst_cons env sg b2 b2 (some P) _ _ _ P hallIn hcov1 hin,
        inputGroupsFold_snd_cons env sg b1 b2 (some P) _ _ _ P hallIn hcov1 hin,
        inputGroupsFold_snd_cons env sg b2 b2 (some P) _ _ _ P hallIn hcov1 hin]
    have hcov2 : ((pushWrites ws1
        (placeLeftWrites env sg b2 ws1 P.id (inputResourcesOf sg))).find?
        (fun e => e.1 == P.id)).isSome :=
      find?_isSome_pushWrites _ ws1 P.id hcov1
    cases hout : (outputResourcesOf sg).isEmpty with
    | true =>
      rw [outputGroupsFold_fst_nil env sg b1 (some P) _ _ _ _ hout,
          outputGroupsFold_fst_nil env sg b2 (some P) _ _ _ _ hout,
          outputGroupsFold_right_nil env sg b1 (some P) _ _ _ _ hout,
          outputGroupsFold_right_nil env sg b2 (some P) _ _ _ _ hout,
          outputGroupsFold_bottom_nil env sg b1 (some P) _ _ _ _ hout,
          outputGroupsFold_bottom_nil env sg b2 (some P) _ _ _ _ hout]
    | false =>
      rw [outputGroupsFold_fst_cons env sg b1 b2 (some P) _ _ _ _ P hallOut hcov2 hout,
          outputGroupsFold_fst_cons env sg b2 b2 (some P) _ _ _ _ P hallOut hcov2 hout,
          outputGroupsFold_right_cons env sg b1 b2 (some P) _ _ _ _ P hallOut hcov2 hout,
          outputGroupsFold_right_cons env sg b2 b2 (some P) _ _ _ _ P hallOut hcov2 hout,
          outputGroupsFold_bottom_cons env sg b1 b2 (some P) _ _ _ _ P hallOut hcov2 hout,
          outputGroupsFold_bottom_cons env sg b2 b2 (some P) _ _ _ _ P hallOut hcov2 hout]

/-- With a single process node, the portrait branch reads no pre-pass
position either. -/
theorem autoArrangePortrait_base_indep (env : Env) (sg : SGraph) (b1 b2 : Nat → Point)
    (P : NodeData) (hP : processNodesOf sg = [P]) :
    autoArrangePortrait env sg b1 = autoArrangePortrait env sg b2 := by
  have hmain := mainProcessOf_single sg P hP
  have hsec : (processNodesOf sg).filter
      (fun n => !(Option.map (fun x => x.id) (some P) == some n.id)) = [] := by
    rw [hP]
    simp
  simp only [autoArrangePortrait, hmain, setPos]
  rw [readPos_cons_self b1, readPos_cons_self b2, hsec,
      if_pos (by rfl : ([] : List NodeData).isEmpty = true),
      if_pos (by rfl : ([] : List NodeData).isEmpty = true)]

/-- With a single process node, a full layout pass ignores the
pre-pass positions. -/
theorem autoArrangeCore_base_indep (env : Env) (sg : SGraph) (b1 b2 : Nat → Point)
    (P : NodeData) (hP : processNodesOf sg = [P]) :
    autoArrangeCore env sg b1 = autoArrangeCore env sg b2 := by
  unfold autoArrangeCore
  by_cases h : env.innerHeight > env.innerWidth
  · rw [if_pos h, if_pos h]
    exact autoArrangePortrait_base_indep env sg b1 b2 P hP
  · rw [if_neg h, if_neg h]
    exact autoArrangeLandscape_base_indep env sg b1 b2 P hP

set_option maxHeartbeats 1600000 in
/-- C1 counterexample: with a secondary process present the pass is
not idempotent.  In `gDrift` the input resource (node 2) is grouped
under the secondary process (node 1); the landscape pass stacks that
group next to the secondary's PRE-pass position, but the pass itself
moves the secondary into the far-right column, so a second run places
the resource elsewhere ((-420, 30) after the first run, (800, 350)
after the second). -/
theorem flow_c1_secondary_group_drift_cex :
    posOf (autoArrangeNodes envLandscape (autoArrangeNodes envLandscape gDrift)) 2 ≠
      posOf (autoArrangeNodes envLandscape gDrift) 2 := by
  simp +decide [autoArrangeNodes, autoArrangeCore, autoArrangeLandscape, autoArrangePortrait,
      inputGroupsFold, outputGroupsFold,
      posOf, statG, basePosOf, envLandscape, gDrift, exMain, exSecondary, exInputToSecondary,
      centerXOf, centerYOf, mainProcessOf, instBEqOfDecidableEq,
      processNodesOf, resourceNodesOf, inputResourcesOf, outputResourcesOf, mechanismResourcesOf,
      getNodeSize, setPos, readPos, pushWrites, applyWrites,
      placeLeftOfProcess, placeLeftWrites, placeLeftBottom,
      placeRightOfProcess, placeRightWrites, placeRightMaxRight, placeRightBottom,
      mechRowWrites, stackOffsets, stackBottom, optMax, Option.getD,
      groupOwners, groupFor, firstDedup,
      firstDedupGo, inputOwnerId, outputOwnerId, interfaceEntries, mapGet, List.find?, List.filter,
      List.filterMap, List.foldl, Point.mk.injEq]
  norm_num

/-- C1 (amended): for a diagram whose only process node is `P`,
running the layout pass twice in a row with no structural change
produces exactly the same graph — in particular the same position for
every node — as running it once, in both orientations.  (With several
processes the pass is not idempotent: secondary-owned groups are
stacked against the secondary's pre-pass position, which the first
pass itself moves — see the counterexample.) -/
theorem flow_c1_idempotent_single_process (env : Env) (g : Graph) (P : NodeData)
    (hP : processNodesOf (statG g) = [P]) :
    autoArrangeNodes env (autoArrangeNodes env g) = autoArrangeNodes env g := by
  by_cases hempty : g.nodes.isEmpty
  · have h1 : autoArrangeNodes env g = g := by
      unfold autoArrangeNodes
      rw [if_pos hempty]
    rw [h1, h1]
  · have hneb : g.nodes.isEmpty = false := by simpa using hempty
    have hstat : statG (autoArrangeNodes env g) = statG g := by
      rw [autoArrangeNodes_eq_of_ne env g hneb]
      unfold statG
      simp only
      rw [applyWrites_statG]
    have hg1ne : (autoArrangeNodes env g).nodes.isEmpty = false := by
      rw [autoArrangeNodes_eq_of_ne env g hneb]
      cases hns : g.nodes with
      | nil => rw [hns] at hneb; simp at hneb
      | cons a t => simp [applyWrites]
    have hcore : autoArrangeCore env (statG (autoArrangeNodes env g))
        (basePosOf (autoArrangeNodes env g)) = autoArrangeCore env (statG g) (basePosOf g) := by
      rw [hstat]
      exact autoArrangeCore_base_indep env (statG g)
        (basePosOf (autoArrangeNodes env g)) (basePosOf g) P hP
    rw [autoArrangeNodes_eq_of_ne env (autoArrangeNodes env g) hg1ne, hcore,
        autoArrangeNodes_eq_of_ne env g hneb]
    show ({ g with nodes := (applyWrites (autoArrangeCore env (statG g) (basePosOf g)) (applyWrites (autoArrangeCore env (statG g) (basePosOf g)) g.nodes)) } : Graph) = { g with nodes := (applyWrites (autoArrangeCore env (statG g) (basePosOf g)) g.nodes) }
    rw [applyWrites_idem]

/-- Witness for C1: the spec's single-process scenario diagram is
reproduced exactly by a second landscape pass. -/
theorem flow_c1_idempotent_witness :
    autoArrangeNodes envLandscape (autoArrangeNodes envLandscape gScenario) =
      autoArrangeNodes envLandscape gScenario :=
  flow_c1_idempotent_single_process envLandscape gScenario
    ⟨0, .process, "Process", .input, "", [1, 2, 3], [4, 5]⟩ (by decide)

/-- `stackOffsets` yields one offset per item. -/
theorem stackOffsets_length (gap : ℚ) : ∀ (l : List ℚ) (s : ℚ),
    (stackOffsets s gap l).length = l.length := by
  intro l
  induction l with
  | nil => intro s; rfl
  | cons w t ih =>
    intro s
    simp only [stackOffsets, List.length_cons, ih]

/-- With nonnegative extents and gap, every stack offset sits at or
after the start. -/
theorem stackOffsets_le_mem (gap : ℚ) (hg : 0 ≤ gap) : ∀ (l : List ℚ) (s : ℚ),
    (∀ w ∈ l, 0 ≤ w) → ∀ x ∈ stackOffsets s gap l, s ≤ x := by
  intro l
  induction l with
  | nil =>
    intro s _ x hx
    simp [stackOffsets] at hx
  | cons w t ih =>
    intro s hw x hx
    simp only [stackOffsets] at hx
    rcases List.mem_cons.mp hx with rfl | hx2
    · exact le_rfl
    · have h1 : s + w + gap ≤ x := ih (s + w + gap) (fun u hu => hw u (by simp [hu])) x hx2
      have hw0 : 0 ≤ w := hw w (by simp)
      linarith

/-- Folding `Math.min` from a seed below every element keeps the
seed. -/
theorem foldl_optMin_const : ∀ (l : List ℚ) (a : ℚ), (∀ x ∈ l, a ≤ x) →
    l.foldl optMin (some a) = some a := by
  intro l
  induction l with
  | nil => intro a _; rfl
  | cons x t ih =>
    intro a h
    rw [List.foldl_cons]
    have hx0 : optMin (some a) x = some (min a x) := rfl
    rw [hx0, min_eq_left (h x (by simp))]
    exact ih a (fun u hu => h u (by simp [hu]))

/-- The `Math.min` fold over a stack walk returns the starting
offset. -/
theorem optMin_stack (gap : ℚ) (hg : 0 ≤ gap) (l : List ℚ) (s : ℚ) (hne : l ≠ [])
    (hw : ∀ w ∈ l, 0 ≤ w) :
    (stackOffsets s gap l).foldl optMin none = some s := by
  cases l with
  | nil => exact absurd rfl hne
  | cons w t =>
    simp only [stackOffsets, List.foldl_cons]
    have h0 : optMin none s = some s := rfl
    rw [h0]
    apply foldl_optMin_const
    intro x hx
    have hw0 : 0 ≤ w := hw w (by simp)
    have h1 : s + w + gap ≤ x :=
      stackOffsets_le_mem gap hg t (s + w + gap) (fun u hu => hw u (by simp [hu])) x hx
    linarith

/-- A seeded `Math.max` fold is a plain `max` fold. -/
theorem foldl_optMax_some : ∀ (l : List ℚ) (a : ℚ),
    l.foldl optMax (some a) = some (l.foldl max a) := by
  intro l
  induction l with
  | nil => intro a; rfl
  | cons x t ih =>
    intro a
    rw [List.foldl_cons, List.foldl_cons]
    have hx : optMax (some a) x = some (max a x) := rfl
    rw [hx]
    exact ih (max a x)

/-- A `max` fold equals any upper bound that the seed or an element
attains. -/
theorem foldl_max_eq : ∀ (l : List ℚ) (a M : ℚ), a ≤ M → (∀ x ∈ l, x ≤ M) →
    (M = a ∨ M ∈ l) → l.foldl max a = M := by
  intro l
  induction l with
  | nil =>
    intro a M _ _ hmem
    rcases hmem with rfl | h
    · rfl
    · simp at h
  | cons x t ih =>
    intro a M ha hall hmem
    rw [List.foldl_cons]
    rcases hmem with rfl | hx
    · have hxa : max M x = M := max_eq_left (hall x (by simp))
      rw [hxa]
      exact ih M M le_rfl (fun u hu => hall u (by simp [hu])) (Or.inl rfl)
    · rcases List.mem_cons.mp hx with rfl | hmt
      · have hax : max a M = M := max_eq_right ha
        rw [hax]
        exact ih M M le_rfl (fun u hu => hall u (by simp [hu])) (Or.inl rfl)
      · exact ih (max a x) M (max_le ha (hall x (by simp)))
          (fun u hu => hall u (by simp [hu])) (Or.inr hmt)

/-- Every right edge `x + w` of a stack walk is bounded by the total
extent. -/
theorem zipvals_le (gap : ℚ) (hg : 0 ≤ gap) : ∀ (l : List ℚ) (s : ℚ), (∀ w ∈ l, 0 ≤ w) →
    ∀ v ∈ List.zipWith (fun x w => x + w) (stackOffsets s gap l) l,
      v ≤ s + l.sum + ((l.length - 1 : ℕ) : ℚ) * gap := by
  intro l
  induction l with
  | nil =>
    intro s _ v hv
    simp [stackOffsets] at hv
  | cons w t ih =>
    intro s hw v hv
    simp only [stackOffsets, List.zipWith_cons_cons] at hv
    have hsum : 0 ≤ t.sum := List.sum_nonneg (fun u hu => hw u (by simp [hu]))
    simp only [List.length_cons, Nat.add_sub_cancel, List.sum_cons]
    rcases List.mem_cons.mp hv with rfl | hv2
    · have hgl : 0 ≤ (t.length : ℚ) * gap := mul_nonneg (Nat.cast_nonneg _) hg
      linarith
    · have h1 := ih (s + w + gap) (fun u hu => hw u (by simp [hu])) v hv2
      cases t with
      | nil => simp at hv2
      | cons w2 t2 =>
        simp only [List.length_cons, Nat.add_sub_cancel] at h1 ⊢
        push_cast at h1 ⊢
        linarith

/-- The total extent is attained: it is the right edge of the last
item of the walk. -/
theorem zipvals_total_mem (gap : ℚ) : ∀ (l : List ℚ) (s : ℚ), l ≠ [] →
    (s + l.sum + ((l.length - 1 : ℕ) : ℚ) * gap) ∈
      List.zipWith (fun x w => x + w) (stackOffsets s gap l) l := by
  intro l
  induction l with
  | nil => intro s h; exact absurd rfl h
  | cons w t ih =>
    intro s _
    simp only [stackOffsets, List.zipWith_cons_cons]
    cases t with
    | nil => simp
    | cons w2 t2 =>
      have h2 := ih (s + w + gap) (by simp)
      have heq : s + (w :: w2 :: t2).sum + (((w :: w2 :: t2).length - 1 : ℕ) : ℚ) * gap
          = (s + w + gap) + (w2 :: t2).sum + (((w2 :: t2).length - 1 : ℕ) : ℚ) * gap := by
        simp only [List.sum_cons, List.length_cons, Nat.add_sub_cancel]
        push_cast
        ring
      rw [heq]
      exact List.mem_cons_of_mem _ h2

/-- The `Math.max` fold of the right edges of a stack walk returns the
start plus the total extent (items plus gaps). -/
theorem optMax_zip_stack (gap : ℚ) (hg : 0 ≤ gap) (l : List ℚ) (s : ℚ) (hne : l ≠ [])
    (hw : ∀ w ∈ l, 0 ≤ w) :
    (List.zipWith (fun x w => x + w) (stackOffsets s gap l) l).foldl optMax none
      = some (s + l.sum + ((l.length - 1 : ℕ) : ℚ) * gap) := by
  cases l with
  | nil => exact absurd rfl hne
  | cons w t =>
    simp only [stackOffsets, List.zipWith_cons_cons, List.foldl_cons]
    have h0 : optMax none (s + w) = some (s + w) := rfl
    rw [h0, foldl_optMax_some]
    congr 1
    apply foldl_max_eq
    · have hh := zipvals_le gap hg (w :: t) s hw (s + w)
        (by simp only [stackOffsets, List.zipWith_cons_cons]; exact List.mem_cons_self _ _)
      exact hh
    · intro x hx
      exact zipvals_le gap hg (w :: t) s hw x
        (by simp only [stackOffsets, List.zipWith_cons_cons]; exact List.mem_cons_of_mem _ hx)
    · have hm := zipvals_total_mem gap (w :: t) s (by simp)
      simp only [stackOffsets, List.zipWith_cons_cons] at hm
      exact List.mem_cons.mp hm

/-- The min fold of the extent computation, as a fold over the mapped
list. -/
theorem extent_min_fold (pos : Nat → Point) : ∀ (l : List NodeData) (acc : Option ℚ),
    l.foldl (fun acc n => optMin acc (pos n.id).x) acc
      = (l.map (fun n => (pos n.id).x)).foldl optMin acc := by
  intro l
  induction l with
  | nil => intro acc; rfl
  | cons n t ih =>
    intro acc
    rw [List.map_cons, List.foldl_cons, List.foldl_cons]
    exact ih _

theorem extent_max_fold (env : Env) (sg : SGraph) (pos : Nat → Point) :
    ∀ (l : List NodeData) (acc : Option ℚ),
    l.foldl (fun acc n =>
        optMax acc ((pos n.id).x + (getNodeSize env sg n.id (nodeFallback n)).width)) acc
      = (l.map (fun n =>
          (pos n.id).x + (getNodeSize env sg n.id (nodeFallback n)).width)).foldl optMax acc := by
  intro l
  induction l with
  | nil => intro acc; rfl
  | cons n t ih =>
    intro acc
    rw [List.map_cons, List.foldl_cons, List.foldl_cons]
    exact ih _

/-- Indexing a `zipWith`. -/
theorem zipWith_getElem_aux {α β γ : Type} (f : α → β → γ) :
    ∀ (l : List α) (m : List β) (i : Nat),
    (List.zipWith f l m)[i]? = (l[i]?).bind (fun a => (m[i]?).map (fun b => f a b)) := by
  intro l
  induction l with
  | nil => intro m i; simp
  | cons a t ih =>
    intro m i
    cases m with
    | nil => simp
    | cons b mt =>
      cases i with
      | zero => simp
      | succ j => simpa using ih mt j

/-- Mechanism resources are resource nodes of the graph. -/
theorem mechanismResourcesOf_mem (sg : SGraph) (n : NodeData)
    (hn : n ∈ mechanismResourcesOf sg) : n ∈ sg.nodes ∧ n.kind = NodeKind.resource := by
  unfold mechanismResourcesOf at hn
  have h1 := (List.mem_filter.mp hn).1
  unfold resourceNodesOf at h1
  have h2 := List.mem_filter.mp h1
  exact ⟨h2.1, by simpa using h2.2⟩

theorem inputResourcesOf_mem (sg : SGraph) (n : NodeData)
    (hn : n ∈ inputResourcesOf sg) : n ∈ sg.nodes ∧ n.kind = NodeKind.resource := by
  unfold inputResourcesOf at hn
  have h1 := (List.mem_filter.mp hn).1
  unfold resourceNodesOf at h1
  have h2 := List.mem_filter.mp h1
  exact ⟨h2.1, by simpa using h2.2⟩

theorem outputResourcesOf_mem (sg : SGraph) (n : NodeData)
    (hn : n ∈ outputResourcesOf sg) : n ∈ sg.nodes ∧ n.kind = NodeKind.resource := by
  unfold outputResourcesOf at hn
  have h1 := (List.mem_filter.mp hn).1
  unfold resourceNodesOf at h1
  have h2 := List.mem_filter.mp h1
  exact ⟨h2.1, by simpa using h2.2⟩

/-- The unique process node is a process node of the graph. -/
theorem processNodesOf_single_mem (sg : SGraph) (P : NodeData)
    (hP : processNodesOf sg = [P]) : P ∈ sg.nodes ∧ P.kind = NodeKind.process := by
  have hPm : P ∈ processNodesOf sg := by rw [hP]; simp
  unfold processNodesOf at hPm
  have h := List.mem_filter.mp hPm
  exact ⟨h.1, by simpa using h.2⟩

/-- The static projection keeps the id list. -/
theorem statG_nodes_map_id (g : Graph) :
    ((statG g).nodes.map (fun n => n.id)) = g.nodes.map (fun n => n.id) := by
  show ((g.nodes.map (fun n => n.toNodeData)).map (fun n => n.id)) = g.nodes.map (fun n => n.id)
  rw [List.map_map]
  rfl

/-- Every static node comes from a displayed node. -/
theorem statG_mem (g : Graph) (n : NodeData) (hn : n ∈ (statG g).nodes) :
    ∃ ln ∈ g.nodes, ln.toNodeData = n :=
  List.mem_map.mp (show n ∈ g.nodes.map (fun ln => ln.toNodeData) from hn)

/-- Every left-stack write targets a member of the placed group. -/
theorem placeLeftWrites_key (env : Env) (sg : SGraph) (b : Nat → Point) (ws : Writes)
    (pid : Nat) (items : List NodeData) (e : Nat × Point)
    (he : e ∈ placeLeftWrites env sg b ws pid items) : ∃ n ∈ items, e.1 = n.id := by
  simp only [placeLeftWrites, List.mem_map] at he
  obtain ⟨⟨n, rest⟩, hx, rfl⟩ := he
  exact ⟨n, (List.of_mem_zip hx).1, rfl⟩

theorem placeRightWrites_key (env : Env) (sg : SGraph) (b : Nat → Point) (ws : Writes)
    (pid : Nat) (items : List NodeData) (e : Nat × Point)
    (he : e ∈ placeRightWrites env sg b ws pid items) : ∃ n ∈ items, e.1 = n.id := by
  simp only [placeRightWrites, List.mem_map] at he
  obtain ⟨⟨n, rest⟩, hx, rfl⟩ := he
  exact ⟨n, (List.of_mem_zip hx).1, rfl⟩

theorem mechRowWrites_key (env : Env) (sg : SGraph) (mechs : List NodeData) (cx bry : ℚ)
    (e : Nat × Point) (he : e ∈ mechRowWrites env sg mechs cx bry) :
    ∃ n ∈ mechs, e.1 = n.id := by
  simp only [mechRowWrites, List.mem_map] at he
  obtain ⟨⟨n, rest⟩, hx, rfl⟩ := he
  exact ⟨n, (List.of_mem_zip hx).1, rfl⟩

/-- Membership from a successful index lookup. -/
theorem mem_of_getElem_aux {α : Type} : ∀ (l : List α) (i : Nat) (a : α),
    l[i]? = some a → a ∈ l := by
  intro l
  induction l with
  | nil => intro i a h; simp at h
  | cons x t ih =>
    intro i a h
    cases i with
    | zero =>
      rw [List.getElem?_cons_zero] at h
      rw [← Option.some.inj h]
      simp
    | succ j =>
      rw [List.getElem?_cons_succ] at h
      exact List.mem_cons_of_mem _ (ih j a h)

/-- The landscape mechanism row is centered on the `centerX` it is
given: the leftmost placed edge and the rightmost right edge average
to `centerX`. -/
theorem mechRow_extent_center (env : Env) (sg : SGraph) (mechs : List NodeData)
    (cx y : ℚ) (b : Nat → Point) (ws : Writes) (pos : Nat → Point)
    (hne : mechs ≠ [])
    (hnodup : (mechs.map (fun n => n.id)).Nodup)
    (hw : ∀ n ∈ mechs, 0 ≤ (getNodeSize env sg n.id ⟨200, 120⟩).width)
    (hfall : ∀ n ∈ mechs, nodeFallback n = (⟨200, 120⟩ : Size))
    (hpos : ∀ n ∈ mechs, pos n.id =
      readPos b (pushWrites ws (mechRowWrites env sg mechs cx y)) n.id) :
    extentCenterX env sg pos mechs = cx := by
  have hWmm : (mechs.map (fun n => getNodeSize env sg n.id ⟨200, 120⟩)).map (fun s => s.width)
      = mechs.map (fun n => (getNodeSize env sg n.id ⟨200, 120⟩).width) := by
    rw [List.map_map]
    rfl
  have hmw : mechRowWrites env sg mechs cx y
      = (mechs.zip (stackOffsets (cx - ((mechs.map (fun n => (getNodeSize env sg n.id ⟨200, 120⟩).width)).sum + ((mechs.length - 1 : ℕ) : ℚ) * 40) / 2) 40 (mechs.map (fun n => (getNodeSize env sg n.id ⟨200, 120⟩).width)))).map (fun e => (e.1.id, (⟨e.2, y⟩ : Point))) := by
    simp only [mechRowWrites]
    rw [hWmm]
  have hlenW : (mechs.map (fun n => (getNodeSize env sg n.id ⟨200, 120⟩).width)).length = mechs.length := by
    rw [List.length_map]
  have hlenXS : (stackOffsets (cx - ((mechs.map (fun n => (getNodeSize env sg n.id ⟨200, 120⟩).width)).sum + ((mechs.length - 1 : ℕ) : ℚ) * 40) / 2) 40 (mechs.map (fun n => (getNodeSize env sg n.id ⟨200, 120⟩).width))).length = mechs.length := by
    rw [stackOffsets_length, hlenW]
  have hkeys : ((mechs.zip (stackOffsets (cx - ((mechs.map (fun n => (getNodeSize env sg n.id ⟨200, 120⟩).width)).sum + ((mechs.length - 1 : ℕ) : ℚ) * 40) / 2) 40 (mechs.map (fun n => (getNodeSize env sg n.id ⟨200, 120⟩).width)))).map
        (fun e => (e.1.id, (⟨e.2, y⟩ : Point)))).map (fun e => e.1)
      = mechs.map (fun n => n.id) := by
    rw [List.map_map]
    have h1 : (mechs.zip (stackOffsets (cx - ((mechs.map (fun n => (getNodeSize env sg n.id ⟨200, 120⟩).width)).sum + ((mechs.length - 1 : ℕ) : ℚ) * 40) / 2) 40 (mechs.map (fun n => (getNodeSize env sg n.id ⟨200, 120⟩).width)))).map
          ((fun (e : Nat × Point) => e.1) ∘ (fun e => (e.1.id, (⟨e.2, y⟩ : Point))))
        = ((mechs.zip (stackOffsets (cx - ((mechs.map (fun n => (getNodeSize env sg n.id ⟨200, 120⟩).width)).sum + ((mechs.length - 1 : ℕ) : ℚ) * 40) / 2) 40 (mechs.map (fun n => (getNodeSize env sg n.id ⟨200, 120⟩).width)))).map Prod.fst).map (fun n => n.id) := by
      rw [List.map_map]
      rfl
    rw [h1, List.map_fst_zip mechs (stackOffsets (cx - ((mechs.map (fun n => (getNodeSize env sg n.id ⟨200, 120⟩).width)).sum + ((mechs.length - 1 : ℕ) : ℚ) * 40) / 2) 40 (mechs.map (fun n => (getNodeSize env sg n.id ⟨200, 120⟩).width))) (le_of_eq hlenXS.symm)]
  have hidx : ∀ (i : Nat) (hi : i < mechs.length) (hix : i < (stackOffsets (cx - ((mechs.map (fun n => (getNodeSize env sg n.id ⟨200, 120⟩).width)).sum + ((mechs.length - 1 : ℕ) : ℚ) * 40) / 2) 40 (mechs.map (fun n => (getNodeSize env sg n.id ⟨200, 120⟩).width))).length),
      pos ((mechs[i]).id) = ⟨(stackOffsets (cx - ((mechs.map (fun n => (getNodeSize env sg n.id ⟨200, 120⟩).width)).sum + ((mechs.length - 1 : ℕ) : ℚ) * 40) / 2) 40 (mechs.map (fun n => (getNodeSize env sg n.id ⟨200, 120⟩).width)))[i], y⟩ := by
    intro i hi hix
    rw [hpos (mechs[i]) (mem_of_getElem_aux _ _ _ (List.getElem?_eq_getElem hi))]
    apply readPos_pushWrites_mem
    · rw [hmw]
      have hz : (mechs.zip (stackOffsets (cx - ((mechs.map (fun n => (getNodeSize env sg n.id ⟨200, 120⟩).width)).sum + ((mechs.length - 1 : ℕ) : ℚ) * 40) / 2) 40 (mechs.map (fun n => (getNodeSize env sg n.id ⟨200, 120⟩).width))))[i]? = some (mechs[i], (stackOffsets (cx - ((mechs.map (fun n => (getNodeSize env sg n.id ⟨200, 120⟩).width)).sum + ((mechs.length - 1 : ℕ) : ℚ) * 40) / 2) 40 (mechs.map (fun n => (getNodeSize env sg n.id ⟨200, 120⟩).width)))[i]) := by
        rw [zip_getElem?, List.getElem?_eq_getElem hi, List.getElem?_eq_getElem hix]
        rfl
      have hzmem : (mechs[i], (stackOffsets (cx - ((mechs.map (fun n => (getNodeSize env sg n.id ⟨200, 120⟩).width)).sum + ((mechs.length - 1 : ℕ) : ℚ) * 40) / 2) 40 (mechs.map (fun n => (getNodeSize env sg n.id ⟨200, 120⟩).width)))[i]) ∈ mechs.zip (stackOffsets (cx - ((mechs.map (fun n => (getNodeSize env sg n.id ⟨200, 120⟩).width)).sum + ((mechs.length - 1 : ℕ) : ℚ) * 40) / 2) 40 (mechs.map (fun n => (getNodeSize env sg n.id ⟨200, 120⟩).width))) := mem_of_getElem_aux _ _ _ hz
      exact List.mem_map_of_mem _ hzmem
    · rw [hmw, hkeys]
      exact hnodup
  have hminlist : mechs.map (fun n => (pos n.id).x) = stackOffsets (cx - ((mechs.map (fun n => (getNodeSize env sg n.id ⟨200, 120⟩).width)).sum + ((mechs.length - 1 : ℕ) : ℚ) * 40) / 2) 40 (mechs.map (fun n => (getNodeSize env sg n.id ⟨200, 120⟩).width)) := by
    apply List.ext_getElem
    · rw [List.length_map, hlenXS]
    · intro i h1 h2
      rw [List.getElem_map]
      show (pos ((mechs[i]).id)).x = (stackOffsets (cx - ((mechs.map (fun n => (getNodeSize env sg n.id ⟨200, 120⟩).width)).sum + ((mechs.length - 1 : ℕ) : ℚ) * 40) / 2) 40 (mechs.map (fun n => (getNodeSize env sg n.id ⟨200, 120⟩).width)))[i]
      rw [hidx i (by simpa using h1) h2]
  have hmaxlist : mechs.map
      (fun n => (pos n.id).x + (getNodeSize env sg n.id (nodeFallback n)).width)
      = List.zipWith (fun x w => x + w) (stackOffsets (cx - ((mechs.map (fun n => (getNodeSize env sg n.id ⟨200, 120⟩).width)).sum + ((mechs.length - 1 : ℕ) : ℚ) * 40) / 2) 40 (mechs.map (fun n => (getNodeSize env sg n.id ⟨200, 120⟩).width))) (mechs.map (fun n => (getNodeSize env sg n.id ⟨200, 120⟩).width)) := by
    apply List.ext_getElem
    · rw [List.length_map, List.length_zipWith, hlenXS, hlenW]
      simp
    · intro i h1 h2
      have hi : i < mechs.length := by simpa using h1
      have hix : i < (stackOffsets (cx - ((mechs.map (fun n => (getNodeSize env sg n.id ⟨200, 120⟩).width)).sum + ((mechs.length - 1 : ℕ) : ℚ) * 40) / 2) 40 (mechs.map (fun n => (getNodeSize env sg n.id ⟨200, 120⟩).width))).length := by rw [hlenXS]; exact hi
      have hiW : i < (mechs.map (fun n => (getNodeSize env sg n.id ⟨200, 120⟩).width)).length := by rw [hlenW]; exact hi
      have hz2 : (List.zipWith (fun x w => x + w) (stackOffsets (cx - ((mechs.map (fun n => (getNodeSize env sg n.id ⟨200, 120⟩).width)).sum + ((mechs.length - 1 : ℕ) : ℚ) * 40) / 2) 40 (mechs.map (fun n => (getNodeSize env sg n.id ⟨200, 120⟩).width))) (mechs.map (fun n => (getNodeSize env sg n.id ⟨200, 120⟩).width)))[i]?
          = some ((stackOffsets (cx - ((mechs.map (fun n => (getNodeSize env sg n.id ⟨200, 120⟩).width)).sum + ((mechs.length - 1 : ℕ) : ℚ) * 40) / 2) 40 (mechs.map (fun n => (getNodeSize env sg n.id ⟨200, 120⟩).width)))[i] + (mechs.map (fun n => (getNodeSize env sg n.id ⟨200, 120⟩).width))[i]) := by
        rw [zipWith_getElem_aux, List.getElem?_eq_getElem hix, List.getElem?_eq_getElem hiW]
        rfl
      have h4 : some ((List.zipWith (fun x w => x + w) (stackOffsets (cx - ((mechs.map (fun n => (getNodeSize env sg n.id ⟨200, 120⟩).width)).sum + ((mechs.length - 1 : ℕ) : ℚ) * 40) / 2) 40 (mechs.map (fun n => (getNodeSize env sg n.id ⟨200, 120⟩).width))) (mechs.map (fun n => (getNodeSize env sg n.id ⟨200, 120⟩).width)))[i])
          = some ((stackOffsets (cx - ((mechs.map (fun n => (getNodeSize env sg n.id ⟨200, 120⟩).width)).sum + ((mechs.length - 1 : ℕ) : ℚ) * 40) / 2) 40 (mechs.map (fun n => (getNodeSize env sg n.id ⟨200, 120⟩).width)))[i] + (mechs.map (fun n => (getNodeSize env sg n.id ⟨200, 120⟩).width))[i]) := by
        rw [← List.getElem?_eq_getElem h2, hz2]
      rw [List.getElem_map, Option.some.inj h4]
      show (pos ((mechs[i]).id)).x + (getNodeSize env sg ((mechs[i]).id)
          (nodeFallback (mechs[i]))).width = (stackOffsets (cx - ((mechs.map (fun n => (getNodeSize env sg n.id ⟨200, 120⟩).width)).sum + ((mechs.length - 1 : ℕ) : ℚ) * 40) / 2) 40 (mechs.map (fun n => (getNodeSize env sg n.id ⟨200, 120⟩).width)))[i] + (mechs.map (fun n => (getNodeSize env sg n.id ⟨200, 120⟩).width))[i]
      rw [hidx i hi hix,
          hfall (mechs[i]) (mem_of_getElem_aux _ _ _ (List.getElem?_eq_getElem hi))]
      have hWi : (mechs.map (fun n => (getNodeSize env sg n.id ⟨200, 120⟩).width))[i] = (getNodeSize env sg ((mechs[i]).id) ⟨200, 120⟩).width := by
        have h5 : (mechs.map (fun n => (getNodeSize env sg n.id ⟨200, 120⟩).width))[i]?
            = some ((getNodeSize env sg ((mechs[i]).id) ⟨200, 120⟩).width) := by
          rw [List.getElem?_map, List.getElem?_eq_getElem hi]
          rfl
        have h6 : some ((mechs.map (fun n => (getNodeSize env sg n.id ⟨200, 120⟩).width))[i])
            = some ((getNodeSize env sg ((mechs[i]).id) ⟨200, 120⟩).width) := by
          rw [← List.getElem?_eq_getElem hiW, h5]
        exact Option.some.inj h6
      rw [hWi]
  have hWne : (mechs.map (fun n => (getNodeSize env sg n.id ⟨200, 120⟩).width)) ≠ [] := by
    intro hcon
    exact hne (List.map_eq_nil_iff.mp hcon)
  have hWnn : ∀ w ∈ (mechs.map (fun n => (getNodeSize env sg n.id ⟨200, 120⟩).width)), 0 ≤ w := by
    intro w hwm
    obtain ⟨n, hn, rfl⟩ := List.mem_map.mp hwm
    exact hw n hn
  unfold extentCenterX
  rw [extent_min_fold pos mechs none, hminlist,
      extent_max_fold env sg pos mechs none, hmaxlist,
      optMin_stack 40 (by norm_num) (mechs.map (fun n => (getNodeSize env sg n.id ⟨200, 120⟩).width)) (cx - ((mechs.map (fun n => (getNodeSize env sg n.id ⟨200, 120⟩).width)).sum + ((mechs.length - 1 : ℕ) : ℚ) * 40) / 2) hWne hWnn,
      optMax_zip_stack 40 (by norm_num) (mechs.map (fun n => (getNodeSize env sg n.id ⟨200, 120⟩).width)) (cx - ((mechs.map (fun n => (getNodeSize env sg n.id ⟨200, 120⟩).width)).sum + ((mechs.length - 1 : ℕ) : ℚ) * 40) / 2) hWne hWnn,
      hlenW]
  show (cx - ((mechs.map (fun n => (getNodeSize env sg n.id ⟨200, 120⟩).width)).sum + ((mechs.length - 1 : ℕ) : ℚ) * 40) / 2 + (cx - ((mechs.map (fun n => (getNodeSize env sg n.id ⟨200, 120⟩).width)).sum + ((mechs.length - 1 : ℕ) : ℚ) * 40) / 2 + (mechs.map (fun n => (getNodeSize env sg n.id ⟨200, 120⟩).width)).sum
      + ((mechs.length - 1 : ℕ) : ℚ) * 40)) / 2 = cx
  ring

/-- A one-node extent is centered on the node's own horizontal
center; for the landscape main-process position that center is
`centerX`. -/
theorem singleton_extent_center (env : Env) (sg : SGraph) (P : NodeData) (pos : Nat → Point)
    (hfall : nodeFallback P = (⟨200, 180⟩ : Size))
    (hpos : pos P.id = landscapeMainPos env sg P) :
    extentCenterX env sg pos [P] = centerXOf env sg := by
  unfold extentCenterX
  simp only [List.foldl_cons, List.foldl_nil, hpos, hfall, landscapeMainPos]
  show (centerXOf env sg - (getNodeSize env sg P.id ⟨200, 180⟩).width / 2
      + (centerXOf env sg - (getNodeSize env sg P.id ⟨200, 180⟩).width / 2
        + (getNodeSize env sg P.id ⟨200, 180⟩).width)) / 2 = centerXOf env sg
  ring

/-- With a single process node, the landscape pass ends by pushing the
mechanism row on top of a write log in which the main process sits at
its centered position. -/
theorem autoArrangeLandscape_structure (env : Env) (sg : SGraph) (b : Nat → Point)
    (P : NodeData) (hP : processNodesOf sg = [P])
    (hrne : ∀ n ∈ sg.nodes, n.kind = NodeKind.resource → n.id ≠ P.id) :
    ∃ ws3 bry,
      autoArrangeLandscape env sg b =
        pushWrites ws3
          (mechRowWrites env sg (mechanismResourcesOf sg) (centerXOf env sg) bry) ∧
      readPos b ws3 P.id = landscapeMainPos env sg P := by
  have hmain := mainProcessOf_single sg P hP
  have hallIn : ∀ r ∈ inputResourcesOf sg, inputOwnerId sg (some P) r = some P.id := by
    intro r _
    rw [← hmain]
    exact inputOwnerId_single sg P hP r
  have hallOut : ∀ r ∈ outputResourcesOf sg, outputOwnerId sg (some P) r = some P.id := by
    intro r _
    rw [← hmain]
    exact outputOwnerId_single sg P hP r
  have hsec : (processNodesOf sg).filter
      (fun n => !(Option.map (fun x => x.id) (some P) == some n.id)) = [] := by
    rw [hP]
    simp
  have hLkey : ∀ (bb : Nat → Point) (wss : Writes) (e : Nat × Point),
      e ∈ placeLeftWrites env sg bb wss P.id (inputResourcesOf sg) → e.1 ≠ P.id := by
    intro bb wss e he
    obtain ⟨n, hn, heq⟩ := placeLeftWrites_key env sg bb wss P.id _ e he
    rw [heq]
    have hm := inputResourcesOf_mem sg n hn
    exact hrne n hm.1 hm.2
  have hRkey : ∀ (bb : Nat → Point) (wss : Writes) (e : Nat × Point),
      e ∈ placeRightWrites env sg bb wss P.id (outputResourcesOf sg) → e.1 ≠ P.id := by
    intro bb wss e he
    obtain ⟨n, hn, heq⟩ := placeRightWrites_key env sg bb wss P.id _ e he
    rw [heq]
    have hm := outputResourcesOf_mem sg n hn
    exact hrne n hm.1 hm.2
  have hcov1 : (([(P.id, (⟨centerXOf env sg - (getNodeSize env sg P.id ⟨200, 180⟩).width / 2, centerYOf env sg - (getNodeSize env sg P.id ⟨200, 180⟩).height / 2 - 40⟩ : Point))] : Writes).find? (fun e => e.1 == P.id)).isSome := by
    simp
  simp only [autoArrangeLandscape, hmain, setPos]
  rw [hsec, if_pos (by rfl : ([] : List NodeData).isEmpty = true)]
  cases hin : (inputResourcesOf sg).isEmpty with
  | true =>
    rw [inputGroupsFold_fst_nil env sg b (some P) _ _ _ hin,
        inputGroupsFold_snd_nil env sg b (some P) _ _ _ hin]
    cases hout : (outputResourcesOf sg).isEmpty with
    | true =>
      rw [outputGroupsFold_fst_nil env sg b (some P) _ _ _ _ hout,
          outputGroupsFold_bottom_nil env sg b (some P) _ _ _ _ hout]
      refine ⟨_, _, rfl, ?_⟩
      rw [readPos_cons_self]
      rfl
    | false =>
      rw [outputGroupsFold_fst_cons env sg b b (some P) _ _ _ ([(P.id, (⟨centerXOf env sg - (getNodeSize env sg P.id ⟨200, 180⟩).width / 2, centerYOf env sg - (getNodeSize env sg P.id ⟨200, 180⟩).height / 2 - 40⟩ : Point))] : Writes)
            P hallOut hcov1 hout,
          outputGroupsFold_bottom_cons env sg b b (some P) _ _ _ ([(P.id, (⟨centerXOf env sg - (getNodeSize env sg P.id ⟨200, 180⟩).width / 2, centerYOf env sg - (getNodeSize env sg P.id ⟨200, 180⟩).height / 2 - 40⟩ : Point))] : Writes)
            P hallOut hcov1 hout]
      refine ⟨_, _, rfl, ?_⟩
      rw [readPos_pushWrites_notmem b _ _ P.id (fun e he => hRkey b _ e he),
          readPos_cons_self]
      rfl
  | false =>
    rw [inputGroupsFold_fst_cons env sg b b (some P) _ _ ([(P.id, (⟨centerXOf env sg - (getNodeSize env sg P.id ⟨200, 180⟩).width / 2, centerYOf env sg - (getNodeSize env sg P.id ⟨200, 180⟩).height / 2 - 40⟩ : Point))] : Writes)
          P hallIn hcov1 hin,
        inputGroupsFold_snd_cons env sg b b (some P) _ _ ([(P.id, (⟨centerXOf env sg - (getNodeSize env sg P.id ⟨200, 180⟩).width / 2, centerYOf env sg - (getNodeSize env sg P.id ⟨200, 180⟩).height / 2 - 40⟩ : Point))] : Writes)
          P hallIn hcov1 hin]
    have hcov2 : ((pushWrites ([(P.id, (⟨centerXOf env sg - (getNodeSize env sg P.id ⟨200, 180⟩).width / 2, centerYOf env sg - (getNodeSize env sg P.id ⟨200, 180⟩).height / 2 - 40⟩ : Point))] : Writes)
        (placeLeftWrites env sg b ([(P.id, (⟨centerXOf env sg - (getNodeSize env sg P.id ⟨200, 180⟩).width / 2, centerYOf env sg - (getNodeSize env sg P.id ⟨200, 180⟩).height / 2 - 40⟩ : Point))] : Writes) P.id (inputResourcesOf sg))).find?
        (fun e => e.1 == P.id)).isSome :=
      find?_isSome_pushWrites _ _ P.id hcov1
    cases hout : (outputResourcesOf sg).isEmpty with
    | true =>
      rw [outputGroupsFold_fst_nil env sg b (some P) _ _ _ _ hout,
          outputGroupsFold_bottom_nil env sg b (some P) _ _ _ _ hout]
      refine ⟨_, _, rfl, ?_⟩
      rw [readPos_pushWrites_notmem b _ _ P.id (fun e he => hLkey b _ e he),
          readPos_cons_self]
      rfl
    | false =>
      rw [outputGroupsFold_fst_cons env sg b b (some P) _ _ _
            (pushWrites ([(P.id, (⟨centerXOf env sg - (getNodeSize env sg P.id ⟨200, 180⟩).width / 2, centerYOf env sg - (getNodeSize env sg P.id ⟨200, 180⟩).height / 2 - 40⟩ : Point))] : Writes)
              (placeLeftWrites env sg b ([(P.id, (⟨centerXOf env sg - (getNodeSize env sg P.id ⟨200, 180⟩).width / 2, centerYOf env sg - (getNodeSize env sg P.id ⟨200, 180⟩).height / 2 - 40⟩ : Point))] : Writes) P.id (inputResourcesOf sg)))
            P hallOut hcov2 hout,
          outputGroupsFold_bottom_cons env sg b b (some P) _ _ _
            (pushWrites ([(P.id, (⟨centerXOf env sg - (getNodeSize env sg P.id ⟨200, 180⟩).width / 2, centerYOf env sg - (getNodeSize env sg P.id ⟨200, 180⟩).height / 2 - 40⟩ : Point))] : Writes)
              (placeLeftWrites env sg b ([(P.id, (⟨centerXOf env sg - (getNodeSize env sg P.id ⟨200, 180⟩).width / 2, centerYOf env sg - (getNodeSize env sg P.id ⟨200, 180⟩).height / 2 - 40⟩ : Point))] : Writes) P.id (inputResourcesOf sg)))
            P hallOut hcov2 hout]
      refine ⟨_, _, rfl, ?_⟩
      rw [readPos_pushWrites_notmem b _ _ P.id (fun e he => hRkey b _ e he),
          readPos_pushWrites_notmem b _ _ P.id (fun e he => hLkey b _ e he),
          readPos_cons_self]
      rfl

set_option maxHeartbeats 1600000 in
/-- C4 counterexample: in the two-process landscape diagram
`gMechTwoProcs` the mechanism row is centered at the viewport center
x = 800 (which is also the main process's center), while the union of
the two placed process extents — the main process around 800 and the
secondary column at 1220..1420 — is centered at x = 1060.  The code
centers the row on `centerX`, not on the union of the process
extents. -/
theorem flow_c4_mech_row_center_cex :
    extentCenterX envLandscape (statG gMechTwoProcs)
        (posOf (autoArrangeNodes envLandscape gMechTwoProcs))
        (mechanismResourcesOf (statG gMechTwoProcs)) ≠
      extentCenterX envLandscape (statG gMechTwoProcs)
        (posOf (autoArrangeNodes envLandscape gMechTwoProcs))
        (processNodesOf (statG gMechTwoProcs)) := by
  simp +decide [extentCenterX, optMin, optMax, nodeFallback,
      autoArrangeNodes, autoArrangeCore, autoArrangeLandscape, autoArrangePortrait,
      inputGroupsFold, outputGroupsFold,
      posOf, statG, basePosOf, envLandscape, gMechTwoProcs, exMain, exSecondary,
      centerXOf, centerYOf, mainProcessOf, instBEqOfDecidableEq,
      processNodesOf, resourceNodesOf, inputResourcesOf, outputResourcesOf, mechanismResourcesOf,
      getNodeSize, setPos, readPos, pushWrites, applyWrites,
      placeLeftOfProcess, placeLeftWrites, placeLeftBottom,
      placeRightOfProcess, placeRightWrites, placeRightMaxRight, placeRightBottom,
      mechRowWrites, stackOffsets, stackBottom, Option.getD,
      groupOwners, groupFor, firstDedup,
      firstDedupGo, inputOwnerId, outputOwnerId, interfaceEntries, mapGet, List.find?, List.filter,
      List.filterMap, List.foldl]
  norm_num

/-- C4 (amended): in landscape mode, for a diagram whose only process
node is `P` (distinct node ids, at least one mechanism resource,
nonnegative measured widths), the placed mechanism row's horizontal
center coincides with the center of the union of all process nodes'
horizontal extents — both equal the viewport center `centerX`.  With
several processes the coincidence fails (see the counterexample),
because the row is centered on `centerX` while secondary processes are
placed in a far-right column. -/
theorem flow_c4_mech_row_centered_single_process (env : Env) (g : Graph) (P : NodeData)
    (hland : ¬ env.innerHeight > env.innerWidth)
    (hP : processNodesOf (statG g) = [P])
    (hmne : mechanismResourcesOf (statG g) ≠ [])
    (hnodup : (g.nodes.map (fun n => n.id)).Nodup)
    (hw : ∀ n ∈ mechanismResourcesOf (statG g),
      0 ≤ (getNodeSize env (statG g) n.id ⟨200, 120⟩).width) :
    extentCenterX env (statG g) (posOf (autoArrangeNodes env g))
        (mechanismResourcesOf (statG g)) =
      extentCenterX env (statG g) (posOf (autoArrangeNodes env g))
        (processNodesOf (statG g)) := by
  have hsgnodup : ((statG g).nodes.map (fun n => n.id)).Nodup := by
    rw [statG_nodes_map_id]
    exact hnodup
  have hPmem := processNodesOf_single_mem (statG g) P hP
  have hrne : ∀ n ∈ (statG g).nodes, n.kind = NodeKind.resource → n.id ≠ P.id := by
    intro n hn hk hid
    have heq : n = P := List.inj_on_of_nodup_map hsgnodup hn hPmem.1 hid
    rw [heq, hPmem.2] at hk
    simp at hk
  have hgne : g.nodes.isEmpty = false := by
    cases hns : g.nodes with
    | nil =>
      exfalso
      apply hmne
      unfold mechanismResourcesOf resourceNodesOf statG
      rw [hns]
      rfl
    | cons a t => simp
  obtain ⟨ws3, bry, hws, hread3⟩ :=
    autoArrangeLandscape_structure env (statG g) (basePosOf g) P hP hrne
  have hcore : autoArrangeCore env (statG g) (basePosOf g)
      = pushWrites ws3 (mechRowWrites env (statG g) (mechanismResourcesOf (statG g))
          (centerXOf env (statG g)) bry) := by
    unfold autoArrangeCore
    rw [if_neg hland]
    exact hws
  have hposn : ∀ n ∈ (statG g).nodes, posOf (autoArrangeNodes env g) n.id =
      readPos (basePosOf g) (autoArrangeCore env (statG g) (basePosOf g)) n.id := by
    intro n hn
    obtain ⟨ln, hln, hlneq⟩ := statG_mem g n hn
    have hid : ln.id = n.id := by rw [← hlneq]
    have hfind : g.nodes.find? (fun m => m.id == n.id) = some ln := by
      rw [← hid]
      exact find?_node_of_nodup g.nodes ln hln hnodup
    exact posOf_autoArrange env g n.id ln hgne hfind
  have hLHS : extentCenterX env (statG g) (posOf (autoArrangeNodes env g))
      (mechanismResourcesOf (statG g)) = centerXOf env (statG g) := by
    apply mechRow_extent_center env (statG g) (mechanismResourcesOf (statG g))
      (centerXOf env (statG g)) bry (basePosOf g) ws3
      (posOf (autoArrangeNodes env g)) hmne
    · have hsub : (mechanismResourcesOf (statG g)).Sublist (statG g).nodes := by
        unfold mechanismResourcesOf resourceNodesOf
        exact (List.filter_sublist _).trans (List.filter_sublist _)
      exact List.Nodup.sublist (List.Sublist.map (fun n => n.id) hsub) hsgnodup
    · exact hw
    · intro n hn
      have hm := mechanismResourcesOf_mem (statG g) n hn
      unfold nodeFallback
      rw [hm.2]
      rfl
    · intro n hn
      have hm := mechanismResourcesOf_mem (statG g) n hn
      rw [hposn n hm.1, hcore]
  have hRHS : extentCenterX env (statG g) (posOf (autoArrangeNodes env g))
      (processNodesOf (statG g)) = centerXOf env (statG g) := by
    rw [hP]
    apply singleton_extent_center
    · unfold nodeFallback
      rw [hPmem.2]
      rfl
    · rw [hposn P hPmem.1, hcore]
      rw [readPos_pushWrites_notmem]
      · exact hread3
      · intro e he
        obtain ⟨n, hn, heq⟩ := mechRowWrites_key env (statG g) _ _ _ e he
        rw [heq]
        have hm := mechanismResourcesOf_mem (statG g) n hn
        exact hrne n hm.1 hm.2
  rw [hLHS, hRHS]

/-- Witness for C4: the single-process, single-mechanism landscape
diagram, where both extent centers equal 800. -/
theorem flow_c4_mech_row_witness :
    extentCenterX envLandscape (statG gMechSingle)
        (posOf (autoArrangeNodes envLandscape gMechSingle))
        (mechanismResourcesOf (statG gMechSingle)) =
      extentCenterX envLandscape (statG gMechSingle)
        (posOf (autoArrangeNodes envLandscape gMechSingle))
        (processNodesOf (statG gMechSingle)) :=
  flow_c4_mech_row_centered_single_process envLandscape gMechSingle
    ⟨0, .process, "Process", .input, "", [1, 2], [4, 5]⟩
    (by norm_num [envLandscape])
    (by decide) (by decide) (by decide)
    (by
      intro n hn
      norm_num [getNodeSize, envLandscape])

end FlowSpec
